import Mathlib

/-!
Shallow embedding of the High programming language front-end and runtime
(lexer_service.rs, parser_service.rs, optimizer.rs, compiler_services.rs,
ft_runtime.rs, data_structures.rs), together with proofs checking the
natural-language specification against it.

Machine integers (i64) are modelled as unbounded `Int`; Rust's `i64`
division truncates toward zero, which is `Int.tdiv`.  `f64` values are
carried as Lean `Float` but no claim computes with them.  Interior
mutability (`Rc<RefCell<Environment>>`) is modelled by explicit state
passing: the runtime's `set` only ever writes the innermost scope, and
expression evaluation never writes any scope, so a scope chain is a list
of association lists threaded through execution.  Potentially diverging
loops (the runtime's `while`/`for`, the parser's statement loops) take a
fuel parameter and return `none` on exhaustion.
-/

set_option maxHeartbeats 2000000

namespace High

/-- Span of source offsets, from data_structures.rs (`Span { start, end }`);
the Rust field `end` is a Lean keyword and is rendered `stop`. -/
structure Span where
  start : Nat
  stop : Nat
deriving DecidableEq, Repr

/-- Token kinds, from data_structures.rs `enum TokenKind`.  Keyword variants
carry a `Kw` suffix where the Rust name collides with Lean syntax. -/
inductive TokenKind where
  | integerLiteral (v : Int)
  | floatLiteral (s : String)
  | stringLiteral (s : String)
  | booleanLiteral (b : Bool)
  | identifier (name : String)
  | fnKw | letKw | mutKw | ifKw | elseKw | whileKw | forKw | returnKw
  | matchKw | macroKw | typeOfKw | evalKw | reflectKw | asyncKw | awaitKw
  | intKw | floatKw | boolKw | stringKw | voidKw | anyKw
  | plus | minus | asterisk | slash | percent
  | eq | neq | less | greater | lessEqual | greaterEqual
  | andOp | orOp | bang
  | bitAnd | bitOr | bitXor | shiftLeft | shiftRight
  | assign | plusAssign | minusAssign
  | question | colon
  | comma | semicolon | dot | arrow
  | lparen | rparen | lbrace | rbrace | lbracket | rbracket
  | eof
  | illegal (c : Char)
deriving Repr

/-- Token, from data_structures.rs `struct Token`. -/
structure Token where
  kind : TokenKind
  span : Span
deriving Repr

/-- Type annotations, from data_structures.rs `enum TypeAnnotation`. -/
inductive TypeAnnot where
  | int | float | bool | string | void | any
  | custom (name : String)
  | infer
deriving DecidableEq, Repr

/-- Reflection payload, from data_structures.rs `struct ReflectionInfo`. -/
structure ReflectionInfo where
  type_name : String
  details : String

mutual

/-- Runtime values, from data_structures.rs `enum Value`.  `Function` inlines
the fields of `FunctionValue`; `Return`/`Macro`/`Type` are renamed to avoid
Lean keywords/banned spellings. -/
inductive Value where
  | integer (n : Int)
  | float (x : Float)
  | boolean (b : Bool)
  | string (s : String)
  | function (parameters : List String) (body : Statement)
  | null
  | ret (v : Value)
  | error (msg : String)
  | reflection (info : ReflectionInfo)
  | macroVal (name : String)
  | typeVal (name : String)

/-- Expressions, from data_structures.rs `enum Expression`. -/
inductive Expression where
  | literal (sp : Span) (v : Value)
  | identifier (sp : Span) (name : String)
  | prefixOperation (sp : Span) (op : TokenKind) (e : Expression)
  | infixOperation (sp : Span) (op : TokenKind) (left right : Expression)
  | ternary (sp : Span) (cond thenE elseE : Expression)
  | function (sp : Span) (params : List String) (body : Statement)
  | call (sp : Span) (callee : Expression) (args : List Expression)
  | grouped (sp : Span) (inner : Expression)
  | reflect (sp : Span) (inner : Expression)
  | eval (sp : Span) (inner : Expression)
  | typeOf (sp : Span) (inner : Expression)
  | macroCall (sp : Span) (name : String) (args : List Expression)

/-- Statements, from data_structures.rs `enum Statement`. -/
inductive Statement where
  | expressionStatement (e : Expression)
  | letStatement (name : String) (value : Expression)
      (type_annot : Option TypeAnnot) (is_mutable : Bool)
  | returnStatement (e : Expression)
  | blockStatement (statements : List Statement) (sp : Span)
  | ifStatement (condition : Expression) (then_branch : Statement)
      (else_branch : Option Statement)
  | whileStatement (condition : Expression) (body : Statement)
  | forStatement (initializer : Option Statement) (condition : Option Expression)
      (increment : Option Expression) (body : Statement)
  | macroDefinition (name : String) (parameters : List String) (body : Statement)

end

/-- Program, from data_structures.rs `struct Program`. -/
structure Program where
  root_id : Nat
  statements : List Statement
  span : Span

/-- Diagnostic levels, from data_structures.rs `enum DiagnosticLevel`. -/
inductive DiagnosticLevel where
  | info | warning | error | herFatal
deriving DecidableEq, Repr

/-- Diagnostic, from data_structures.rs `struct Diagnostic`. -/
structure Diagnostic where
  level : DiagnosticLevel
  message : String
  span : Span
  help : Option String

/-- Character-scanning state of the lexer: the unconsumed characters and the
current position, mirroring the `chars`/`position` fields of `LexerService`
(lexer_service.rs); positions count characters. -/
structure LexScan where
  chars : List Char
  position : Nat

/-- The lexer's `skip_whitespace` loop (lexer_service.rs), recursing on the
unconsumed characters. -/
def skipWhitespaceAux : List Char → Nat → LexScan
  | [], p => ⟨[], p⟩
  | c :: rest, p =>
    if c.isWhitespace then skipWhitespaceAux rest (p + 1) else ⟨c :: rest, p⟩

/-- The lexer's `skip_whitespace` (lexer_service.rs). -/
def skipWhitespace (st : LexScan) : LexScan :=
  skipWhitespaceAux st.chars st.position

/-- Character collection inside `read_identifier_or_keyword`: a maximal run of
alphanumeric/underscore characters (lexer_service.rs). -/
def readIdentCharsAux : List Char → Nat → (List Char × LexScan)
  | [], p => ([], ⟨[], p⟩)
  | c :: rest, p =>
    if c.isAlphanum || c = '_' then
      let (l, st) := readIdentCharsAux rest (p + 1)
      (c :: l, st)
    else ([], ⟨c :: rest, p⟩)

/-- Character collection of `read_identifier_or_keyword` over a scan state. -/
def readIdentChars (st : LexScan) : List Char × LexScan :=
  readIdentCharsAux st.chars st.position

/-- Character collection inside `read_number`: a maximal run of digits and
dots, flagging float when any dot occurs (lexer_service.rs). -/
def readNumberCharsAux : List Char → Nat → (List Char × Bool × LexScan)
  | [], p => ([], false, ⟨[], p⟩)
  | c :: rest, p =>
    if c.isDigit then
      let (l, fl, st) := readNumberCharsAux rest (p + 1)
      (c :: l, fl, st)
    else if c = '.' then
      let (l, _, st) := readNumberCharsAux rest (p + 1)
      (c :: l, true, st)
    else ([], false, ⟨c :: rest, p⟩)

/-- Character collection of `read_number` over a scan state. -/
def readNumberChars (st : LexScan) : List Char × Bool × LexScan :=
  readNumberCharsAux st.chars st.position

/-- Decimal digit-run value. -/
def digitsToNat (cs : List Char) : Nat :=
  cs.foldl (fun acc c => acc * 10 + (c.toNat - '0'.toNat)) 0

/-- Rust's `literal.parse::<i64>().unwrap_or_default()` over a digit run:
values above `i64::MAX` fail to parse and degrade to 0 (lexer_service.rs). -/
def parseI64 (cs : List Char) : Int :=
  let n := digitsToNat cs
  if n ≤ 9223372036854775807 then (n : Int) else 0

/-- Best-effort rendering of `s.parse::<f64>().unwrap_or(0.0)`: digit runs
with one dot parse, anything else degrades to 0.0.  No claim computes with
float literals, so only the shape matters. -/
def parseFloatLit (s : String) : Float :=
  match s.split (· = '.') with
  | [a] => Float.ofScientific (digitsToNat a.data) false 0
  | [a, b] =>
      Float.ofScientific (digitsToNat a.data * 10 ^ b.length + digitsToNat b.data)
        true b.length
  | _ => 0.0

/-- Keyword table of `read_identifier_or_keyword` (lexer_service.rs). -/
def keywordOrIdent (literal : String) : TokenKind :=
  match literal with
  | "fn" => .fnKw
  | "let" => .letKw
  | "mut" => .mutKw
  | "if" => .ifKw
  | "else" => .elseKw
  | "while" => .whileKw
  | "for" => .forKw
  | "return" => .returnKw
  | "match" => .matchKw
  | "macro" => .macroKw
  | "type_of" => .typeOfKw
  | "eval" => .evalKw
  | "reflect" => .reflectKw
  | "async" => .asyncKw
  | "await" => .awaitKw
  | "true" => .booleanLiteral true
  | "false" => .booleanLiteral false
  | "int" => .intKw
  | "float" => .floatKw
  | "bool" => .boolKw
  | "string" => .stringKw
  | "void" => .voidKw
  | "any" => .anyKw
  | _ => .identifier literal

/-- The lexer's `read_identifier_or_keyword` (lexer_service.rs); the caller
supplies the recorded start position for the span. -/
def readIdentOrKeyword (st : LexScan) : TokenKind × LexScan :=
  let (l, st') := readIdentChars st
  (keywordOrIdent (String.mk l), st')

/-- The lexer's `read_number` (lexer_service.rs). -/
def readNumber (st : LexScan) : TokenKind × LexScan :=
  let (l, isFloat, st') := readNumberChars st
  if isFloat then (.floatLiteral (String.mk l), st')
  else (.integerLiteral (parseI64 l), st')

/-- One-character peek, the lexer's `peek` (lexer_service.rs). -/
def lexPeek (st : LexScan) : Option Char := st.chars.head?

/-- The lexer's `advance` (lexer_service.rs). -/
def lexAdvance (st : LexScan) : LexScan :=
  match st.chars with
  | [] => st
  | _ :: rest => ⟨rest, st.position + 1⟩

/-- The lexer's `read_symbol` with its one-character lookahead for the
two-character operators (lexer_service.rs). -/
def readSymbol (st : LexScan) (c : Char) : TokenKind × LexScan :=
  let st1 := lexAdvance st
  match c with
  | '=' => if lexPeek st1 = some '=' then (.eq, lexAdvance st1) else (.assign, st1)
  | '+' => if lexPeek st1 = some '=' then (.plusAssign, lexAdvance st1) else (.plus, st1)
  | '-' => if lexPeek st1 = some '=' then (.minusAssign, lexAdvance st1) else (.minus, st1)
  | '*' => (.asterisk, st1)
  | '/' => (.slash, st1)
  | '%' => (.percent, st1)
  | '!' => if lexPeek st1 = some '=' then (.neq, lexAdvance st1) else (.bang, st1)
  | '&' => if lexPeek st1 = some '&' then (.andOp, lexAdvance st1) else (.bitAnd, st1)
  | '|' => if lexPeek st1 = some '|' then (.orOp, lexAdvance st1) else (.bitOr, st1)
  | '^' => (.bitXor, st1)
  | '<' =>
    if lexPeek st1 = some '<' then (.shiftLeft, lexAdvance st1)
    else if lexPeek st1 = some '=' then (.lessEqual, lexAdvance st1)
    else (.less, st1)
  | '>' =>
    if lexPeek st1 = some '>' then (.shiftRight, lexAdvance st1)
    else if lexPeek st1 = some '=' then (.greaterEqual, lexAdvance st1)
    else (.greater, st1)
  | '?' => (.question, st1)
  | ':' => (.colon, st1)
  | '{' => (.lbrace, st1)
  | '}' => (.rbrace, st1)
  | '(' => (.lparen, st1)
  | ')' => (.rparen, st1)
  | '[' => (.lbracket, st1)
  | ']' => (.rbracket, st1)
  | ',' => (.comma, st1)
  | ';' => (.semicolon, st1)
  | '.' => (.dot, st1)
  | _ => (.illegal c, st1)

/-- The `tokenize` loop (lexer_service.rs).  Each iteration consumes at least
one character, so fuel `chars.length + 1` always suffices; the trailing `Eof`
token is appended by `LexerService.new` below. -/
def tokenizeAux : Nat → LexScan → List Token
  | 0, _ => []
  | fuel+1, st =>
    match st.chars with
    | [] => []
    | _ :: _ =>
      let st1 := skipWhitespace st
      match lexPeek st1 with
      | none => []
      | some c =>
        let start := st1.position
        let (kind, st2) :=
          if c.isAlpha || c = '_' then readIdentOrKeyword st1
          else if c.isDigit then readNumber st1
          else readSymbol st1 c
        ⟨kind, ⟨start, st2.position⟩⟩ :: tokenizeAux fuel st2

/-- Token-stream cursor of `LexerService` after its eager `tokenize`
(lexer_service.rs): the produced tokens, the serving index, and the final
scan position used for fabricated `Eof` tokens. -/
structure LexerService where
  tokens : List Token
  index : Nat
  position : Nat

/-- `LexerService::new` (lexer_service.rs): tokenize eagerly, append the
terminal `Eof` token at the final position. -/
def LexerService.new (source : String) : LexerService :=
  let toks := tokenizeAux (source.length + 1) ⟨source.data, 0⟩
  { tokens := toks ++ [⟨.eof, ⟨source.length, source.length⟩⟩],
    index := 0, position := source.length }

/-- `LexerService::next_token` (lexer_service.rs): serve the next stored
token, or fabricate an `Eof` at the final position when exhausted. -/
def LexerService.nextToken (lx : LexerService) : Token × LexerService :=
  match lx.tokens[lx.index]? with
  | some tok => (tok, { lx with index := lx.index + 1 })
  | none => (⟨.eof, ⟨lx.position, lx.position⟩⟩, lx)

/-- Parser state: token source plus the `current`/`peek` two-token window
(parser_service.rs `struct ParserService`). -/
structure ParserService where
  lexer : LexerService
  current : Token
  peek : Token

/-- `ParserService::advance` (parser_service.rs): shift peek into current and
pull a fresh peek from the lexer. -/
def ParserService.advance (p : ParserService) : ParserService :=
  let (next, lx) := p.lexer.nextToken
  { lexer := lx, current := p.peek, peek := next }

/-- `ParserService::new` (parser_service.rs): start from two placeholder
`Eof` tokens and advance twice. -/
def ParserService.new (lx : LexerService) : ParserService :=
  let p0 : ParserService := { lexer := lx, current := ⟨.eof, ⟨0, 0⟩⟩, peek := ⟨.eof, ⟨0, 0⟩⟩ }
  p0.advance.advance

/-- `ParserService::parse_type_annotation` (parser_service.rs).  Note it reads
`current` but never advances — the token stays unconsumed. -/
def parseTypeAnnot (p : ParserService) : Option TypeAnnot :=
  match p.current.kind with
  | .identifier name => some (.custom name)
  | .intKw => some .int
  | .floatKw => some .float
  | .boolKw => some .bool
  | .stringKw => some .string
  | .voidKw => some .void
  | .anyKw => some .any
  | _ => none

/-- Parameter-list loop of `parse_macro_definition` (parser_service.rs):
collect identifiers until `)`, tolerating commas, `break` on anything else;
the closing `)` consumption happens in the caller. -/
def parseMacroParams : Nat → ParserService → Option (List String × ParserService)
  | 0, _ => none
  | fuel+1, p =>
    match p.current.kind with
    | .rparen => some ([], p)
    | .identifier id =>
      let p := p.advance
      let p :=
        match p.current.kind with
        | .comma => p.advance
        | _ => p
      match parseMacroParams fuel p with
      | none => none
      | some (ps, p) => some (id :: ps, p)
    | _ => some ([], p)

mutual

/-- `ParserService::parse_program`'s statement loop (parser_service.rs):
until `Eof`, parse a statement; on `None` skip one token and retry.  Fuel
exhaustion returns `none`, standing for divergence of the Rust loop. -/
def parseProgramLoop : Nat → ParserService → Option (List Statement)
  | 0, _ => none
  | fuel+1, p =>
    match p.current.kind with
    | .eof => some []
    | _ =>
      match parseStatement fuel p with
      | none => none
      | some (some stmt, p) => (parseProgramLoop fuel p).map (stmt :: ·)
      | some (none, p) => parseProgramLoop fuel p.advance

/-- `ParserService::parse_statement` keyword dispatch (parser_service.rs). -/
def parseStatement : Nat → ParserService → Option (Option Statement × ParserService)
  | 0, _ => none
  | fuel+1, p =>
    match p.current.kind with
    | .letKw => parseLetStatement fuel p
    | .returnKw => parseReturnStatement fuel p
    | .ifKw => parseIfStatement fuel p
    | .forKw => parseForStatement fuel p
    | .macroKw => parseMacroDefinition fuel p
    | .lbrace => parseBlockStatement fuel p
    | _ => parseExpressionStatement fuel p

/-- `ParserService::parse_let_statement` (parser_service.rs). -/
def parseLetStatement : Nat → ParserService → Option (Option Statement × ParserService)
  | 0, _ => none
  | fuel+1, p =>
    let p := p.advance
    let (is_mutable, p) :=
      match p.current.kind with
      | .mutKw => (true, p.advance)
      | _ => (false, p)
    match p.current.kind with
    | .identifier name =>
      let p := p.advance
      let (type_annot, p) :=
        match p.current.kind with
        | .colon =>
          let p := p.advance
          (parseTypeAnnot p, p)
        | _ => (none, p)
      match p.current.kind with
      | .assign =>
        let p := p.advance
        match parseExpression fuel p with
        | none => none
        | some (none, p) => some (none, p)
        | some (some value, p) =>
          some (some (.letStatement name value type_annot is_mutable), p)
      | _ => some (none, p)
    | _ => some (none, p)

/-- `ParserService::parse_return_statement` (parser_service.rs). -/
def parseReturnStatement : Nat → ParserService → Option (Option Statement × ParserService)
  | 0, _ => none
  | fuel+1, p =>
    let p := p.advance
    match parseExpression fuel p with
    | none => none
    | some (none, p) => some (none, p)
    | some (some e, p) => some (some (.returnStatement e), p)

/-- `ParserService::parse_if_statement` (parser_service.rs). -/
def parseIfStatement : Nat → ParserService → Option (Option Statement × ParserService)
  | 0, _ => none
  | fuel+1, p =>
    let p := p.advance
    match parseExpression fuel p with
    | none => none
    | some (none, p) => some (none, p)
    | some (some condition, p) =>
      match parseStatement fuel p with
      | none => none
      | some (none, p) => some (none, p)
      | some (some then_branch, p) =>
        match p.current.kind with
        | .elseKw =>
          let p := p.advance
          match parseStatement fuel p with
          | none => none
          | some (none, p) => some (none, p)
          | some (some else_stmt, p) =>
            some (some (.ifStatement condition then_branch (some else_stmt)), p)
        | _ => some (some (.ifStatement condition then_branch none), p)

/-- `ParserService::parse_for_statement` (parser_service.rs). -/
def parseForStatement : Nat → ParserService → Option (Option Statement × ParserService)
  | 0, _ => none
  | fuel+1, p =>
    let p := p.advance
    let initRes : Option (Option (Option Statement) × ParserService) :=
      match p.current.kind with
      | .semicolon => some (some none, p.advance)
      | _ =>
        match parseStatement fuel p with
        | none => none
        | some (none, p) => some (none, p)
        | some (some s, p) => some (some (some s), p)
    match initRes with
    | none => none
    | some (none, p) => some (none, p)
    | some (some initializer, p) =>
      let condRes : Option (Option (Option Expression) × ParserService) :=
        match p.current.kind with
        | .semicolon => some (some none, p.advance)
        | _ =>
          match parseExpression fuel p with
          | none => none
          | some (none, p) => some (none, p)
          | some (some c, p) => some (some (some c), p)
      match condRes with
      | none => none
      | some (none, p) => some (none, p)
      | some (some condition, p) =>
        let incRes : Option (Option (Option Expression) × ParserService) :=
          match p.current.kind with
          | .lbrace => some (some none, p)
          | _ =>
            match parseExpression fuel p with
            | none => none
            | some (none, p) => some (none, p)
            | some (some e, p) => some (some (some e), p)
        match incRes with
        | none => none
        | some (none, p) => some (none, p)
        | some (some increment, p) =>
          match parseStatement fuel p with
          | none => none
          | some (none, p) => some (none, p)
          | some (some body, p) =>
            some (some (.forStatement initializer condition increment body), p)

/-- `ParserService::parse_macro_definition` (parser_service.rs). -/
def parseMacroDefinition : Nat → ParserService → Option (Option Statement × ParserService)
  | 0, _ => none
  | fuel+1, p =>
    let p := p.advance
    match p.current.kind with
    | .identifier name =>
      let p := p.advance
      let paramsRes : Option (List String × ParserService) :=
        match p.current.kind with
        | .lparen =>
          match parseMacroParams fuel p.advance with
          | none => none
          | some (ps, p) => some (ps, p.advance)
        | _ => some ([], p)
      match paramsRes with
      | none => none
      | some (params, p) =>
        match parseBlockStatement fuel p with
        | none => none
        | some (none, p) => some (none, p)
        | some (some body, p) =>
          some (some (.macroDefinition name params body), p)
    | _ => some (none, p)

/-- `ParserService::parse_block_statement` (parser_service.rs).  Note the
statement loop checks only for `}` — never for `Eof`. -/
def parseBlockStatement : Nat → ParserService → Option (Option Statement × ParserService)
  | 0, _ => none
  | fuel+1, p =>
    let p := p.advance
    match parseBlockLoop fuel p with
    | none => none
    | some (statements, p) =>
      some (some (.blockStatement statements ⟨0, 0⟩), p.advance)

/-- Statement loop of `parse_block_statement` (parser_service.rs): until `}`,
parse a statement, skipping one token on `None`. -/
def parseBlockLoop : Nat → ParserService → Option (List Statement × ParserService)
  | 0, _ => none
  | fuel+1, p =>
    match p.current.kind with
    | .rbrace => some ([], p)
    | _ =>
      match parseStatement fuel p with
      | none => none
      | some (some stmt, p) =>
        match parseBlockLoop fuel p with
        | none => none
        | some (stmts, p) => some (stmt :: stmts, p)
      | some (none, p) => parseBlockLoop fuel p.advance

/-- `ParserService::parse_expression_statement` (parser_service.rs). -/
def parseExpressionStatement : Nat → ParserService → Option (Option Statement × ParserService)
  | 0, _ => none
  | fuel+1, p =>
    match parseExpression fuel p with
    | none => none
    | some (none, p) => some (none, p)
    | some (some e, p) => some (some (.expressionStatement e), p)

/-- `ParserService::parse_expression` (parser_service.rs).  This is the whole
expression grammar of the implementation: primary expressions only — no
infix, prefix, ternary or non-identifier call form is ever consumed. -/
def parseExpression : Nat → ParserService → Option (Option Expression × ParserService)
  | 0, _ => none
  | fuel+1, p =>
    let start := p.current.span.start
    match p.current.kind with
    | .evalKw =>
      let p := p.advance
      match parseExpression fuel p with
      | none => none
      | some (none, p) => some (none, p)
      | some (some inner, p) => some (some (.eval ⟨start, p.current.span.stop⟩ inner), p)
    | .reflectKw =>
      let p := p.advance
      match parseExpression fuel p with
      | none => none
      | some (none, p) => some (none, p)
      | some (some inner, p) => some (some (.reflect ⟨start, p.current.span.stop⟩ inner), p)
    | .typeOfKw =>
      let p := p.advance
      match parseExpression fuel p with
      | none => none
      | some (none, p) => some (none, p)
      | some (some inner, p) => some (some (.typeOf ⟨start, p.current.span.stop⟩ inner), p)
    | .identifier name =>
      let p := p.advance
      match p.current.kind with
      | .lparen =>
        let p := p.advance
        match parseMacroArgs fuel p with
        | none => none
        | some (none, p) => some (none, p)
        | some (some args, p) =>
          let p := p.advance
          some (some (.macroCall ⟨start, p.current.span.stop⟩ name args), p)
      | _ => some (some (.identifier ⟨start, p.current.span.stop⟩ name), p)
    | .integerLiteral v =>
      let p := p.advance
      some (some (.literal ⟨start, p.current.span.stop⟩ (.integer v)), p)
    | .floatLiteral s =>
      let p := p.advance
      some (some (.literal ⟨start, p.current.span.stop⟩ (.float (parseFloatLit s))), p)
    | .booleanLiteral b =>
      let p := p.advance
      some (some (.literal ⟨start, p.current.span.stop⟩ (.boolean b)), p)
    | .lparen =>
      let p := p.advance
      match parseExpression fuel p with
      | none => none
      | some (none, p) => some (none, p)
      | some (some inner, p) =>
        match p.current.kind with
        | .rparen =>
          let p := p.advance
          some (some (.grouped ⟨start, p.current.span.stop⟩ inner), p)
        | _ => some (none, p)
    | _ => some (none, p)

/-- Argument-list loop of the macro-invocation arm of `parse_expression`
(parser_service.rs): until `)`, parse an argument expression (failure
propagates via `?`), tolerating commas; `)` is consumed by the caller. -/
def parseMacroArgs : Nat → ParserService → Option (Option (List Expression) × ParserService)
  | 0, _ => none
  | fuel+1, p =>
    match p.current.kind with
    | .rparen => some (some [], p)
    | _ =>
      match parseExpression fuel p with
      | none => none
      | some (none, p) => some (none, p)
      | some (some arg, p) =>
        let p :=
          match p.current.kind with
          | .comma => p.advance
          | _ => p
        match parseMacroArgs fuel p with
        | none => none
        | some (none, p) => some (none, p)
        | some (some args, p) => some (some (arg :: args), p)

end

/-- `ParserService::parse_program` (parser_service.rs): run the statement
loop and wrap the result in a `Program` with a zero span. -/
def parseProgram (fuel : Nat) (p : ParserService) : Option Program :=
  (parseProgramLoop fuel p).map fun statements =>
    { root_id := 0, statements := statements, span := ⟨0, 0⟩ }

/-- Whole front half of the pipeline: `LexerService::new` then
`ParserService::new` then `parse_program`. -/
def parseSource (fuel : Nat) (source : String) : Option Program :=
  parseProgram fuel (ParserService.new (LexerService.new source))

/-- One scope's store (ft_runtime.rs `ValueStore`): `HashMap::insert`
overwrite plus `get` is modelled by prepend-shadowing with first-match
lookup, which is observationally the same. -/
abbrev Scope := List (String × Value)

/-- Chained environment (ft_runtime.rs `Environment`): innermost scope
first, then the outer chain. -/
abbrev Env := List Scope

/-- Lookup in a single scope's store. -/
def scopeGet (s : Scope) (name : String) : Option Value :=
  (s.find? (fun pr => pr.1 == name)).map (·.2)

/-- `Environment::get` (ft_runtime.rs): the own store first, then the outer
chain. -/
def envGet : Env → String → Option Value
  | [], _ => none
  | sc :: outer, name =>
    match scopeGet sc name with
    | some v => some v
    | none => envGet outer name

/-- `Environment::set` (ft_runtime.rs): writes only the innermost scope's
own store, never the outer chain. -/
def envSet : Env → String → Value → Env
  | [], _, _ => []
  | sc :: outer, name, v => ((name, v) :: sc) :: outer

/-- Rust `Debug` escaping for the string content that can occur here. -/
def escapeDebug (s : String) : String :=
  String.join (s.data.map fun c =>
    if c = '"' then ("\\\"")
    else if c = '\\' then ("\\\\")
    else if c = '\n' then ("\\n")
    else if c = '\t' then ("\\t")
    else if c = '\r' then ("\\r")
    else String.mk [c])

/-- Rendering of Rust's derived `Debug` for `Value` as used by the runtime's
`format!("{:?}", val)`.  Float and function rendering is approximate: the
embedded parser and runtime never construct those values, and no claim
inspects them. -/
def valueDebug : Value → String
  | .integer n => s!"Integer({n})"
  | .float x => s!"Float({x})"
  | .boolean b => s!"Boolean({b})"
  | .string s => "String(\"" ++ escapeDebug s ++ "\")"
  | .function _ _ => "Function(FunctionValue \x7b .. \x7d)"
  | .null => "Null"
  | .ret v => "Return(" ++ valueDebug v ++ ")"
  | .error msg => "Error(\"" ++ escapeDebug msg ++ "\")"
  | .reflection info =>
      "Reflection(ReflectionInfo \x7b type_name: \"" ++ escapeDebug info.type_name ++
        "\", details: \"" ++ escapeDebug info.details ++ "\" \x7d)"
  | .macroVal name => "Macro(\"" ++ escapeDebug name ++ "\")"
  | .typeVal name => "Type(\"" ++ escapeDebug name ++ "\")"

/-- Free function `reflect` (ft_runtime.rs): a reflection-info value naming
the runtime kind plus the debug rendering. -/
def reflect (val : Value) : Value :=
  let type_name : String :=
    match val with
    | .integer _ => "int"
    | .float _ => "float"
    | .boolean _ => "bool"
    | .string _ => "string"
    | .function _ _ => "function"
    | .null => "null"
    | .ret _ => "return"
    | .error _ => "error"
    | .reflection _ => "reflection"
    | .macroVal _ => "macro"
    | .typeVal _ => "type"
  .reflection ⟨type_name, valueDebug val⟩

/-- Post-loop terminal diagnostic of `execute_program` (ft_runtime.rs lines
149-163): Fatal when the executed count is non-zero and not a multiple of
three, Info otherwise. -/
def balanceDiagnostic (executed_count : Nat) (sp : Span) : Diagnostic :=
  if 0 < executed_count ∧ executed_count % 3 ≠ 0 then
    { level := .herFatal,
      message := s!"Unbalanced execution flow: {executed_count} statements",
      span := sp,
      help := some ("Ensure control flows terminate correctly.") }
  else
    { level := .info,
      message := s!"Executed {executed_count} statements successfully.",
      span := sp,
      help := none }

/-- Mutable runtime state of `HighEnduranceRuntime` (ft_runtime.rs): the
environment chain and the output log. -/
structure RtState where
  env : Env
  output : List String

/-- Output logging, `self.output.push(...)` (ft_runtime.rs). -/
def pushOutput (st : RtState) (line : String) : RtState :=
  { st with output := st.output ++ [line] }

/-- `HighEnduranceRuntime::new` (ft_runtime.rs): one empty scope, no
output. -/
def initState : RtState := ⟨[[]], []⟩

mutual

/-- `HighEnduranceRuntime::execute_program` (ft_runtime.rs): run the
statement loop, then either forward an early diagnostic (a nested block's
Fatal/Error) or derive the balance diagnostic from the executed count.
`none` is fuel exhaustion, standing for divergence of the Rust loops. -/
def execProgram : Nat → Program → RtState → Option (Diagnostic × RtState)
  | 0, _, _ => none
  | fuel+1, program, st =>
    match execStmts fuel program.statements 0 program.span st with
    | none => none
    | some (.inl diag, st1) => some (diag, st1)
    | some (.inr executed_count, st1) =>
      some (balanceDiagnostic executed_count program.span, st1)

/-- Statement loop of `execute_program` (ft_runtime.rs lines 56-147),
carrying `executed_count`.  `.inl diag` is the early `return diag` of the
block arm; `.inr count` is normal completion of the loop. -/
def execStmts : Nat → List Statement → Nat → Span → RtState →
    Option ((Diagnostic ⊕ Nat) × RtState)
  | 0, _, _, _, _ => none
  | _+1, [], executed_count, _, st => some (.inr executed_count, st)
  | fuel+1, stmt :: rest, executed_count, sp, st =>
    match stmt with
    | .expressionStatement expr =>
      match evalExpr fuel expr st with
      | none => none
      | some (val, st1) =>
        let st2 := pushOutput st1 ("Expression result: " ++ valueDebug val)
        execStmts fuel rest (executed_count + 1) sp st2
    | .letStatement name value _ _ =>
      match evalExpr fuel value st with
      | none => none
      | some (val, st1) =>
        let st2 := pushOutput ⟨envSet st1.env name val, st1.output⟩ s!"Variable '{name}' bound"
        execStmts fuel rest (executed_count + 1) sp st2
    | .returnStatement expr =>
      match evalExpr fuel expr st with
      | none => none
      | some (val, st1) =>
        let st2 := pushOutput st1 ("Return value: " ++ valueDebug val)
        execStmts fuel rest (executed_count + 1) sp st2
    | .blockStatement statements _ =>
      let st1 := pushOutput st ("Entering block scope.")
      match execProgram fuel ⟨0, statements, sp⟩ ⟨[] :: st1.env, st1.output⟩ with
      | none => none
      | some (diag, stB) =>
        let st2 : RtState := ⟨stB.env.tail, stB.output⟩
        match diag.level with
        | .herFatal => some (.inl diag, st2)
        | .error => some (.inl diag, st2)
        | _ => execStmts fuel rest (executed_count + 1) sp st2
    | .ifStatement condition then_branch else_branch =>
      match evalExpr fuel condition st with
      | none => none
      | some (cond_val, st1) =>
        let branch : Option RtState :=
          match cond_val with
          | .boolean true => (execProgram fuel ⟨0, [then_branch], sp⟩ st1).map (·.2)
          | _ =>
            match else_branch with
            | some else_stmt => (execProgram fuel ⟨0, [else_stmt], sp⟩ st1).map (·.2)
            | none => some st1
        match branch with
        | none => none
        | some st2 => execStmts fuel rest (executed_count + 1) sp st2
    | .whileStatement condition body =>
      match execWhile fuel condition body sp st with
      | none => none
      | some st1 => execStmts fuel rest (executed_count + 1) sp st1
    | .forStatement initializer condition increment body =>
      let initRes : Option RtState :=
        match initializer with
        | some init => (execProgram fuel ⟨0, [init], sp⟩ st).map (·.2)
        | none => some st
      match initRes with
      | none => none
      | some st1 =>
        match execFor fuel condition increment body sp st1 with
        | none => none
        | some st2 => execStmts fuel rest (executed_count + 1) sp st2
    | .macroDefinition name parameters _ =>
      let st1 : RtState := ⟨envSet st.env name (.macroVal name), st.output⟩
      let k := parameters.length
      let st2 := pushOutput st1 s!"Macro '{name}' defined with {k} parameter(s)"
      execStmts fuel rest (executed_count + 1) sp st2

/-- The `while` arm's loop (ft_runtime.rs lines 111-120): re-evaluate the
condition, execute the body as a singleton program on the same runtime (and
hence the same scope — no new scope is constructed here), discard its
diagnostic, repeat. -/
def execWhile : Nat → Expression → Statement → Span → RtState → Option RtState
  | 0, _, _, _, _ => none
  | fuel+1, condition, body, sp, st =>
    match evalExpr fuel condition st with
    | none => none
    | some (cond_val, st1) =>
      match cond_val with
      | .boolean true =>
        match execProgram fuel ⟨0, [body], sp⟩ st1 with
        | none => none
        | some (_, st2) => execWhile fuel condition body sp st2
      | _ => some st1

/-- The `for` arm's loop (ft_runtime.rs lines 129-138): an absent condition
continues (`map_or(true, ..)`), the body runs as a singleton program on the
same runtime, then the increment expression is evaluated and its value
discarded. -/
def execFor : Nat → Option Expression → Option Expression → Statement → Span →
    RtState → Option RtState
  | 0, _, _, _, _, _ => none
  | fuel+1, condition, increment, body, sp, st =>
    let condRes : Option (Bool × RtState) :=
      match condition with
      | none => some (true, st)
      | some c =>
        match evalExpr fuel c st with
        | none => none
        | some (.boolean true, st1) => some (true, st1)
        | some (_, st1) => some (false, st1)
    match condRes with
    | none => none
    | some (false, st1) => some st1
    | some (true, st1) =>
      match execProgram fuel ⟨0, [body], sp⟩ st1 with
      | none => none
      | some (_, st2) =>
        let incRes : Option RtState :=
          match increment with
          | none => some st2
          | some inc => (evalExpr fuel inc st2).map (·.2)
        match incRes with
        | none => none
        | some st3 => execFor fuel condition increment body sp st3

/-- `HighEnduranceRuntime::evaluate_expression` (ft_runtime.rs lines
166-203).  Expression evaluation never writes any scope; only the output log
can change (macro invocations log a record). -/
def evalExpr : Nat → Expression → RtState → Option (Value × RtState)
  | 0, _, _ => none
  | fuel+1, expr, st =>
    match expr with
    | .literal _ val => some (val, st)
    | .identifier _ name =>
      match envGet st.env name with
      | some v => some (v, st)
      | none => some (.error s!"Undefined variable '{name}'", st)
    | .reflect _ inner =>
      match evalExpr fuel inner st with
      | none => none
      | some (val, st1) => some (reflect val, st1)
    | .eval _ code_expr =>
      match evalExpr fuel code_expr st with
      | none => none
      | some (code_val, st1) =>
        match code_val with
        | .string code =>
          match evalString fuel code with
          | none => none
          | some (.ok val) => some (val, st1)
          | some (.error e) => some (.error ("Eval failed: " ++ e), st1)
        | _ => some (.error ("eval() expects a string"), st1)
    | .typeOf _ inner =>
      match evalExpr fuel inner st with
      | none => none
      | some (val, st1) =>
        let t : Value :=
          match val with
          | .integer _ => .typeVal ("int")
          | .float _ => .typeVal ("float")
          | .boolean _ => .typeVal ("bool")
          | .string _ => .typeVal ("string")
          | _ => .typeVal ("unknown")
        some (t, st1)
    | .macroCall _ name args =>
      let k := args.length
      some (.null, pushOutput st s!"Macro '{name}' called with {k} args")
    | _ => some (.error ("Unsupported expression"), st)

/-- Free function `eval_string` (ft_runtime.rs lines 226-241): re-tokenize,
re-parse, execute on a brand-new runtime rooted at an empty scope; a
Fatal/Error diagnostic becomes `Err(message)`, otherwise the last output
line (or `Null` when there is none) is the result. -/
def evalString : Nat → String → Option (Except String Value)
  | 0, _ => none
  | fuel+1, source =>
    match parseProgram fuel (ParserService.new (LexerService.new source)) with
    | none => none
    | some program =>
      match execProgram fuel program initState with
      | none => none
      | some (diag, st) =>
        match diag.level with
        | .herFatal => some (.error diag.message)
        | .error => some (.error diag.message)
        | _ =>
          some (.ok (match st.output.getLast? with
            | some line => .string line
            | none => .null))

end

mutual

/-- `is_terminal` (compiler_services.rs lines 152-169). -/
def isTerminal : Statement → Bool
  | .returnStatement _ => true
  | .blockStatement statements _ => lastIsTerminal statements
  | .ifStatement _ then_branch else_branch =>
    isTerminal then_branch &&
      (match else_branch with
       | some b => isTerminal b
       | none => false)
  | _ => false

/-- The `statements.last()` step shared by `ends_with_return` and the block
arm of `is_terminal` (compiler_services.rs): terminality of the last element,
false for an empty list. -/
def lastIsTerminal : List Statement → Bool
  | [] => false
  | [s] => isTerminal s
  | _ :: s :: rest => lastIsTerminal (s :: rest)

end

/-- `ends_with_return` (compiler_services.rs lines 144-150). -/
def endsWithReturn (program : Program) : Bool :=
  lastIsTerminal program.statements

/-- `Optimizer::fold_constants` (optimizer.rs lines 111-141).  Rust's `i64`
division truncates toward zero, hence `Int.tdiv`; a failed zero-divisor
guard falls through to the final `None` arm since no later arm matches the
same operand kinds. -/
def foldConstants (op : TokenKind) (left right : Value) : Option Value :=
  match op, left, right with
  | .plus, .integer a, .integer b => some (.integer (a + b))
  | .minus, .integer a, .integer b => some (.integer (a - b))
  | .asterisk, .integer a, .integer b => some (.integer (a * b))
  | .slash, .integer a, .integer b =>
    if b ≠ 0 then some (.integer (Int.tdiv a b)) else none
  | .plus, .float a, .float b => some (.float (a + b))
  | .minus, .float a, .float b => some (.float (a - b))
  | .asterisk, .float a, .float b => some (.float (a * b))
  | .slash, .float a, .float b =>
    if !(b == 0.0) then some (.float (a / b)) else none
  | .eq, .integer a, .integer b => some (.boolean (a == b))
  | .neq, .integer a, .integer b => some (.boolean (a != b))
  | .less, .integer a, .integer b => some (.boolean (decide (a < b)))
  | .greater, .integer a, .integer b => some (.boolean (decide (a > b)))
  | .lessEqual, .integer a, .integer b => some (.boolean (decide (a ≤ b)))
  | .greaterEqual, .integer a, .integer b => some (.boolean (decide (a ≥ b)))
  | .eq, .float a, .float b => some (.boolean (a == b))
  | .neq, .float a, .float b => some (.boolean (!(a == b)))
  | .less, .float a, .float b => some (.boolean (a < b))
  | .greater, .float a, .float b => some (.boolean (a > b))
  | .lessEqual, .float a, .float b => some (.boolean (a ≤ b))
  | .greaterEqual, .float a, .float b => some (.boolean (a ≥ b))
  | _, _, _ => none

mutual

/-- `Optimizer::optimize_expression` (optimizer.rs lines 60-109), the Rust
in-place rewrite rendered functionally: operands first, then fold a
two-literal infix, elide a literal group, select a boolean-literal ternary
branch; call/reflect/eval/type-of/macro-call recurse without changing the
node shape; all other variants (including prefix operations) are left
untouched. -/
def optimizeExpression : Expression → Expression
  | .infixOperation sp op left right =>
    let left' := optimizeExpression left
    let right' := optimizeExpression right
    match left', right' with
    | .literal lsp l, .literal rsp r =>
      match foldConstants op l r with
      | some val => .literal sp val
      | none => .infixOperation sp op (.literal lsp l) (.literal rsp r)
    | l', r' => .infixOperation sp op l' r'
  | .grouped sp inner =>
    match optimizeExpression inner with
    | .literal _ val => .literal sp val
    | i => .grouped sp i
  | .ternary sp cond thenE elseE =>
    let cond' := optimizeExpression cond
    let thenE' := optimizeExpression thenE
    let elseE' := optimizeExpression elseE
    match cond' with
    | .literal _ (.boolean b) => if b then thenE' else elseE'
    | c => .ternary sp c thenE' elseE'
  | .call sp func args => .call sp (optimizeExpression func) (optimizeExpressionList args)
  | .reflect sp inner => .reflect sp (optimizeExpression inner)
  | .eval sp inner => .eval sp (optimizeExpression inner)
  | .typeOf sp inner => .typeOf sp (optimizeExpression inner)
  | .macroCall sp name args => .macroCall sp name (optimizeExpressionList args)
  | e => e

/-- Recursion into argument lists of `optimize_expression` (optimizer.rs). -/
def optimizeExpressionList : List Expression → List Expression
  | [] => []
  | e :: rest => optimizeExpression e :: optimizeExpressionList rest

end

mutual

/-- `Optimizer::optimize_statement` (optimizer.rs lines 14-57); macro
definitions are left untouched. -/
def optimizeStatement : Statement → Statement
  | .expressionStatement e => .expressionStatement (optimizeExpression e)
  | .letStatement name value ty m => .letStatement name (optimizeExpression value) ty m
  | .returnStatement e => .returnStatement (optimizeExpression e)
  | .ifStatement c t e =>
    .ifStatement (optimizeExpression c) (optimizeStatement t)
      (match e with
       | some s => some (optimizeStatement s)
       | none => none)
  | .blockStatement stmts sp => .blockStatement (optimizeStatementList stmts) sp
  | .forStatement init c inc body =>
    .forStatement
      (match init with
       | some s => some (optimizeStatement s)
       | none => none)
      (match c with
       | some e => some (optimizeExpression e)
       | none => none)
      (match inc with
       | some e => some (optimizeExpression e)
       | none => none)
      (optimizeStatement body)
  | .whileStatement c body => .whileStatement (optimizeExpression c) (optimizeStatement body)
  | .macroDefinition n ps b => .macroDefinition n ps b

/-- Recursion into statement lists of `optimize_statement` (optimizer.rs). -/
def optimizeStatementList : List Statement → List Statement
  | [] => []
  | s :: rest => optimizeStatement s :: optimizeStatementList rest

end

/-- `Optimizer::optimize` (optimizer.rs lines 8-12). -/
def optimize (program : Program) : Program :=
  { program with statements := optimizeStatementList program.statements }

/-! Claim-support definitions: concrete programs, recognisers and the
spec-side terminality predicate. -/

/-- Zero span, as the parser and runtime produce for synthesised nodes. -/
def spanZero : Span := ⟨0, 0⟩

/-- Integer literal expression at the zero span. -/
def intLit (n : Int) : Expression := .literal spanZero (.integer n)

/-- Boolean literal expression at the zero span. -/
def boolLit (b : Bool) : Expression := .literal spanZero (.boolean b)

/-- String literal expression at the zero span. -/
def strLit (s : String) : Expression := .literal spanZero (.string s)

/-- Plain immutable, unannotated let statement. -/
def plainLet (name : String) (e : Expression) : Statement :=
  .letStatement name e none false

/-- Program with the given top-level statements at the zero span. -/
def progOf (stmts : List Statement) : Program := ⟨0, stmts, spanZero⟩

/-- Recogniser for block statements. -/
def Statement.isBlockStmt : Statement → Bool
  | .blockStatement _ _ => true
  | _ => false

/-- Flat programs of one to four let statements, for the balance rule. -/
def c1Prog (k : Nat) : Program :=
  progOf ((List.range k).map fun i => plainLet (toString i) (intLit i))

/-- Counterexample program for the balance claim: two lets followed by a
block holding a single let.  All three top-level statements execute, yet the
returned diagnostic is the nested block's Fatal naming count 1. -/
def c1CexProg : Program :=
  progOf [plainLet ("a") (intLit 1), plainLet ("b") (intLit 2),
    .blockStatement [plainLet ("c") (intLit 3)] spanZero]

/-- Counterexample program for the error-terminality claim: an expression
statement over an unbound identifier (yielding `Value::Error`) followed by a
let statement. -/
def c4CexProg : Program :=
  progOf [.expressionStatement (.identifier spanZero ("x")), plainLet ("y") (intLit 1)]

/-- Loop body of the per-iteration-scope counterexample: a bare `if`
statement (not a block), whose branches bind into the current scope. -/
def c7LoopBody : Statement :=
  .ifStatement (.identifier spanZero ("x"))
    (plainLet ("c") (boolLit false))
    (some (plainLet ("x") (boolLit true)))

/-- Counterexample program for the per-iteration-scope claim: `c` starts
true; iteration 1 takes the else branch and binds `x` in the current scope;
iteration 2 observes `x` from iteration 1 and flips `c`, ending the loop. -/
def c7CexProg : Program :=
  progOf [plainLet ("c") (boolLit true), .whileStatement (.identifier spanZero ("c")) c7LoopBody]

/-- Three-statement source whose inner run succeeds, for the `eval` claim. -/
def c6SrcOk : String := "let a = 1 let b = 2 let c = 3"

/-- Spec-side terminality predicate, following the claim's words: a return;
a block whose last inner statement is recursively terminal; an `if` whose
then branch is terminal and whose else branch is present and terminal. -/
inductive Terminal : Statement → Prop where
  | ret (e : Expression) : Terminal (.returnStatement e)
  | block (stmts : List Statement) (sp : Span) (last : Statement)
      (hlast : stmts.getLast? = some last) (ht : Terminal last) :
      Terminal (.blockStatement stmts sp)
  | ifBoth (c : Expression) (t e : Statement)
      (hthen : Terminal t) (helse : Terminal e) :
      Terminal (.ifStatement c t (some e))

mutual

/-- No-infix invariant over expressions: `true` iff no `InfixOperation` node
occurs anywhere in the tree. -/
def exprNoInfix : Expression → Bool
  | .literal _ _ => true
  | .identifier _ _ => true
  | .prefixOperation _ _ e => exprNoInfix e
  | .infixOperation _ _ _ _ => false
  | .ternary _ a b c => exprNoInfix a && exprNoInfix b && exprNoInfix c
  | .function _ _ body => stmtNoInfix body
  | .call _ f args => exprNoInfix f && exprListNoInfix args
  | .grouped _ e => exprNoInfix e
  | .reflect _ e => exprNoInfix e
  | .eval _ e => exprNoInfix e
  | .typeOf _ e => exprNoInfix e
  | .macroCall _ _ args => exprListNoInfix args

/-- No-infix invariant over expression lists. -/
def exprListNoInfix : List Expression → Bool
  | [] => true
  | e :: rest => exprNoInfix e && exprListNoInfix rest

/-- No-infix invariant over statements. -/
def stmtNoInfix : Statement → Bool
  | .expressionStatement e => exprNoInfix e
  | .letStatement _ v _ _ => exprNoInfix v
  | .returnStatement e => exprNoInfix e
  | .blockStatement stmts _ => stmtListNoInfix stmts
  | .ifStatement c t e =>
    exprNoInfix c && stmtNoInfix t &&
      (match e with
       | some s => stmtNoInfix s
       | none => true)
  | .whileStatement c b => exprNoInfix c && stmtNoInfix b
  | .forStatement i c inc b =>
    (match i with
     | some s => stmtNoInfix s
     | none => true) &&
    (match c with
     | some e => exprNoInfix e
     | none => true) &&
    (match inc with
     | some e => exprNoInfix e
     | none => true) && stmtNoInfix b
  | .macroDefinition _ _ b => stmtNoInfix b

/-- No-infix invariant over statement lists. -/
def stmtListNoInfix : List Statement → Bool
  | [] => true
  | s :: rest => stmtNoInfix s && stmtListNoInfix rest

end

/-- No-infix invariant over whole programs. -/
def progNoInfix (p : Program) : Bool := stmtListNoInfix p.statements

/-- Parser state reached inside `parse_block_statement` on the source `"{"`:
both lookahead tokens are `Eof` and the token stream is exhausted, so
`advance` no longer changes anything. -/
def stuckParser : ParserService :=
  (ParserService.new (LexerService.new ("\x7b"))).advance

/-! Theorems. -/

/-- C1, counterexample.  The claim says the diagnostic `execute_program`
returns is determined solely by the count of statements executed at that
level, with a non-zero multiple of three yielding Info.  In `c1CexProg` all
three top-level statements execute (the output shows all three), so the
claim predicts Info "Executed 3 statements successfully."; the runtime
instead forwards the nested block's Fatal diagnostic naming count 1. -/
theorem c1_counterexample :
    (execProgram 100 c1CexProg initState).map
        (fun r => (r.1.level, r.1.message, r.2.output)) =
      some (.herFatal, "Unbalanced execution flow: 1 statements",
        ["Variable 'a' bound", "Variable 'b' bound",
         "Entering block scope.", "Variable 'c' bound"]) := by
  rfl

/-- C4, counterexample.  The first statement of `c4CexProg` evaluates to
`Value::Error` (undefined variable), yet the second statement still executes:
the output gains "Variable 'y' bound" and `y` is bound afterwards. -/
theorem c4_counterexample :
    (evalExpr 30 (.identifier spanZero ("x")) initState).map (fun r => valueDebug r.1) =
        some ("Error(\"Undefined variable 'x'\")") ∧
      (execProgram 50 c4CexProg initState).map
          (fun r => (r.2.output, (envGet r.2.env ("y")).map valueDebug)) =
        some (["Expression result: Error(\"Undefined variable 'x'\")", "Variable 'y' bound"],
          some ("Integer(1)")) :=
  ⟨rfl, rfl⟩

/-- C7, counterexample.  The while loop of `c7CexProg` has a bare `if` body,
so no per-iteration scope exists: iteration 1 binds `x` in the current scope
(else branch), iteration 2 observes that `x` and flips `c` (then branch),
and after the loop `x` — bound only inside the loop body — still looks up as
`Boolean(true)` instead of the claimed undefined-variable error. -/
theorem c7_counterexample :
    (execProgram 100 c7CexProg initState).map
        (fun r => (r.2.output, (envGet r.2.env ("x")).map valueDebug,
          (envGet r.2.env ("c")).map valueDebug)) =
      some (["Variable 'c' bound", "Variable 'x' bound", "Variable 'c' bound"],
        some ("Boolean(true)"), some ("Boolean(false)")) := by
  rfl

/-- C6, counterexample.  `eval("")` reaches the claim's "otherwise" branch —
the inner run's diagnostic is Info — but the inner run logged no output, so
the result is `Value::Null`, not a string value carrying a last output
line. -/
theorem c6_counterexample :
    parseSource 48 ("") = some ⟨0, [], ⟨0, 0⟩⟩ ∧
      (execProgram 48 (progOf []) initState).map (fun r => (r.1.level, r.2.output)) =
        some (.info, []) ∧
      evalExpr 50 (.eval spanZero (strLit (""))) initState = some (.null, initState) :=
  ⟨rfl, rfl, rfl⟩

/-- C9, code bug.  `parse_type_annotation` never consumes the type token, so
after `let x: int` the required `=` check sees `int` and `parse_let_statement`
returns `None`; error recovery then reduces `let x: int = 5;` to the single
expression statement `5`.  Without an annotation the let parses as
intended. -/
theorem c9_annotation_never_parses :
    parseSource 50 ("let x: int = 5;") =
        some ⟨0, [.expressionStatement (.literal ⟨13, 15⟩ (.integer 5))], ⟨0, 0⟩⟩ ∧
      parseSource 50 ("let x = 5;") =
        some ⟨0, [.letStatement ("x") (.literal ⟨8, 10⟩ (.integer 5)) none false], ⟨0, 0⟩⟩ :=
  ⟨rfl, rfl⟩

/-- C3.  Folding `a / b` over integer literals: for `b ≠ 0` the infix node
becomes the literal truncated quotient (Rust `i64` division is `Int.tdiv`);
for the literal divisor 0 the node survives optimization unchanged. -/
theorem c3_division_folding :
    (∀ (a b : Int) (sp sp1 sp2 : Span), b ≠ 0 →
      optimizeExpression
          (.infixOperation sp .slash (.literal sp1 (.integer a)) (.literal sp2 (.integer b))) =
        .literal sp (.integer (Int.tdiv a b))) ∧
    (∀ (a : Int) (sp sp1 sp2 : Span),
      optimizeExpression
          (.infixOperation sp .slash (.literal sp1 (.integer a)) (.literal sp2 (.integer 0))) =
        .infixOperation sp .slash (.literal sp1 (.integer a)) (.literal sp2 (.integer 0))) := by
  constructor
  · intro a b sp sp1 sp2 hb
    simp [optimizeExpression, foldConstants, hb]
  · intro a sp sp1 sp2
    simp [optimizeExpression, foldConstants]

/-- C3, witness: `(-7) / 2` folds to the literal `-3` (truncation toward
zero), via `c3_division_folding` at a concrete input. -/
theorem c3_division_folding_witness :
    optimizeExpression (.infixOperation spanZero .slash (intLit (-7)) (intLit 2)) =
      .literal spanZero (.integer (-3)) := by
  have h := c3_division_folding.1 (-7) 2 spanZero spanZero spanZero (by decide)
  simpa using h

/-- Advancing the stuck parser state changes nothing: both lookahead tokens
are the fabricated `Eof` and the lexer is exhausted. -/
theorem stuckParser_advance : stuckParser.advance = stuckParser := rfl

/-- On the stuck state, `parse_statement` either runs out of fuel or fails
without consuming anything: `Eof` dispatches to the expression-statement
fallthrough, whose primary-expression match has no `Eof` arm. -/
theorem parseStatement_stuck (fuel : Nat) :
    parseStatement fuel stuckParser = none ∨
      parseStatement fuel stuckParser = some (none, stuckParser) := by
  match fuel with
  | 0 => exact Or.inl rfl
  | 1 => exact Or.inl rfl
  | 2 => exact Or.inl rfl
  | (n+3) => exact Or.inr rfl

/-- The statement loop of `parse_block_statement` never returns on the stuck
state: it only stops on `}`, `Eof` is not `}`, and the one-token skip is a
no-op there. -/
theorem parseBlockLoop_stuck (fuel : Nat) : parseBlockLoop fuel stuckParser = none := by
  induction fuel with
  | zero => rfl
  | succ f ih =>
    have hstep : parseBlockLoop (f+1) stuckParser =
        match parseStatement f stuckParser with
        | none => none
        | some (some stmt, p) =>
          match parseBlockLoop f p with
          | none => none
          | some (stmts, p') => some (stmt :: stmts, p')
        | some (none, p) => parseBlockLoop f p.advance := rfl
    rcases parseStatement_stuck f with h | h
    · rw [hstep, h]
    · rw [hstep, h]
      exact ih

/-- On the source `"{"`, `parse_statement` never returns: it dispatches to
`parse_block_statement`, whose loop is stuck at `Eof`. -/
theorem parseStatement_open_brace (fuel : Nat) :
    parseStatement fuel (ParserService.new (LexerService.new ("\x7b"))) = none := by
  match fuel with
  | 0 => rfl
  | 1 => rfl
  | (n+2) =>
    have hstep : parseStatement (n+2) (ParserService.new (LexerService.new ("\x7b"))) =
        match parseBlockLoop n stuckParser with
        | none => none
        | some (statements, p) =>
          some (some (.blockStatement statements ⟨0, 0⟩), p.advance) := rfl
    rw [hstep, parseBlockLoop_stuck n]

/-- C8, divergence at the failing input.  For every fuel, parsing the source
`"{"` (an unclosed brace) exhausts the fuel: the Rust parser loops forever in
`parse_block_statement`, because its statement loop waits for `}` while
`next_token` keeps fabricating `Eof` and the skip-one-token recovery no
longer consumes anything.  The claim that parsing terminates on every source
text fails here. -/
theorem c8_unclosed_brace_diverges (fuel : Nat) : parseSource fuel ("\x7b") = none := by
  match fuel with
  | 0 => rfl
  | (n+1) =>
    have hstep : parseSource (n+1) ("\x7b") =
        (match parseStatement n (ParserService.new (LexerService.new ("\x7b"))) with
         | none => none
         | some (some stmt, p) => (parseProgramLoop n p).map (stmt :: ·)
         | some (none, p) => parseProgramLoop n p.advance).map
          (fun statements => ({ root_id := 0, statements := statements, span := ⟨0, 0⟩ } : Program)) := rfl
    rw [hstep, parseStatement_open_brace n]
    rfl

/-- The `statements.last()` helper agrees with `getLast?` composed with
`is_terminal`. -/
theorem lastIsTerminal_eq (l : List Statement) :
    lastIsTerminal l = (l.getLast?.map isTerminal).getD false := by
  induction l with
  | nil => rfl
  | cons a t ih =>
    cases t with
    | nil => rfl
    | cons b r =>
      rw [show lastIsTerminal (a :: b :: r) = lastIsTerminal (b :: r) from rfl, ih,
        List.getLast?_cons_cons]

/-- A `getLast?` hit is a member of the list. -/
theorem mem_of_getLast?_stmt {l : List Statement} {a : Statement}
    (h : l.getLast? = some a) : a ∈ l := by
  induction l with
  | nil => simp [List.getLast?] at h
  | cons x t ih =>
    cases t with
    | nil =>
      rw [List.getLast?_singleton] at h
      cases h
      simp
    | cons b r =>
      rw [List.getLast?_cons_cons] at h
      exact List.mem_cons_of_mem x (ih h)

/-- Soundness half of the terminality equivalence, by strong induction on
node size. -/
theorem terminal_of_isTerminal_bounded :
    ∀ (n : Nat) (s : Statement), sizeOf s ≤ n → isTerminal s = true → Terminal s := by
  intro n
  induction n with
  | zero =>
    intro s hs _
    cases s <;> simp at hs
  | succ n ih =>
    intro s hs ht
    cases s with
    | returnStatement e => exact Terminal.ret e
    | blockStatement stmts sp =>
      rw [show isTerminal (.blockStatement stmts sp) = lastIsTerminal stmts from rfl,
        lastIsTerminal_eq] at ht
      cases hl : stmts.getLast? with
      | none => rw [hl] at ht; simp at ht
      | some last =>
        rw [hl] at ht
        simp only [Option.map_some', Option.getD_some] at ht
        refine Terminal.block stmts sp last hl (ih last ?_ ht)
        have h1 : sizeOf last < sizeOf stmts :=
          List.sizeOf_lt_of_mem (mem_of_getLast?_stmt hl)
        have h2 : sizeOf stmts < sizeOf (Statement.blockStatement stmts sp) := by
          simp
          omega
        omega
    | ifStatement c t e =>
      cases e with
      | none =>
        rw [show isTerminal (.ifStatement c t none) = (isTerminal t && false) from rfl] at ht
        simp at ht
      | some b =>
        rw [show isTerminal (.ifStatement c t (some b)) =
          (isTerminal t && isTerminal b) from rfl] at ht
        rw [Bool.and_eq_true] at ht
        have hst : sizeOf t < sizeOf (Statement.ifStatement c t (some b)) := by
          simp
          omega
        have hsb : sizeOf b < sizeOf (Statement.ifStatement c t (some b)) := by
          simp
          omega
        exact Terminal.ifBoth c t b (ih t (by omega) ht.1) (ih b (by omega) ht.2)
    | expressionStatement e => exact absurd ht (by simp [show isTerminal (.expressionStatement e) = false from rfl])
    | letStatement a b c d => exact absurd ht (by simp [show isTerminal (.letStatement a b c d) = false from rfl])
    | whileStatement c b => exact absurd ht (by simp [show isTerminal (.whileStatement c b) = false from rfl])
    | forStatement a b c d => exact absurd ht (by simp [show isTerminal (.forStatement a b c d) = false from rfl])
    | macroDefinition a b c => exact absurd ht (by simp [show isTerminal (.macroDefinition a b c) = false from rfl])

/-- Completeness half of the terminality equivalence, by induction on the
derivation. -/
theorem isTerminal_of_terminal (s : Statement) (h : Terminal s) : isTerminal s = true := by
  induction h with
  | ret e => rfl
  | block stmts sp last hlast ht ih =>
    rw [show isTerminal (.blockStatement stmts sp) = lastIsTerminal stmts from rfl,
      lastIsTerminal_eq, hlast]
    simpa using ih
  | ifBoth c t e hthen helse ih1 ih2 =>
    rw [show isTerminal (.ifStatement c t (some e)) = (isTerminal t && isTerminal e) from rfl,
      ih1, ih2]
    rfl

/-- C2.  `ends_with_return` is true exactly when the program's last
top-level statement satisfies the claim's terminality predicate, and the
three quoted examples behave as stated: terminal for the if with both
branches returning, non-terminal without the else, non-terminal for a bare
let. -/
theorem c2_ends_with_return :
    (∀ p : Program, endsWithReturn p = true ↔
        ∃ last, p.statements.getLast? = some last ∧ Terminal last) ∧
      (parseSource 100 ("{ if (c) { return 1; } else { return 2; } }")).map endsWithReturn =
        some true ∧
      (parseSource 100 ("{ if (c) { return 1; } }")).map endsWithReturn = some false ∧
      (parseSource 100 ("{ let x = 1; }")).map endsWithReturn = some false := by
  refine ⟨?_, rfl, rfl, rfl⟩
  intro p
  rw [show endsWithReturn p = lastIsTerminal p.statements from rfl, lastIsTerminal_eq]
  cases hl : p.statements.getLast? with
  | none => simp
  | some last =>
    simp only [Option.map_some', Option.getD_some]
    constructor
    · intro ht
      exact ⟨last, rfl, terminal_of_isTerminal_bounded (sizeOf last) last le_rfl ht⟩
    · rintro ⟨l2, hl2, ht⟩
      cases hl2
      exact isTerminal_of_terminal last ht

/-- One-step unfolding of `execProgram` at positive fuel. -/
theorem execProgram_succ (f : Nat) (p : Program) (st : RtState) :
    execProgram (f+1) p st =
      match execStmts f p.statements 0 p.span st with
      | none => none
      | some (.inl diag, st1) => some (diag, st1)
      | some (.inr c, st1) => some (balanceDiagnostic c p.span, st1) := rfl

/-- Statement sequences without block statements never return early and
count exactly one executed statement per list element: only the block arm
contains the early `return diag`, and every other arm increments
`executed_count` once and continues. -/
theorem execStmts_no_block :
    ∀ (fuel : Nat) (stmts : List Statement) (count : Nat) (sp : Span)
      (st : RtState) (r : (Diagnostic ⊕ Nat) × RtState),
      stmts.all (fun s => !s.isBlockStmt) = true →
      execStmts fuel stmts count sp st = some r →
      r.1 = .inr (count + stmts.length) := by
  intro fuel
  induction fuel with
  | zero =>
    intro stmts count sp st r _ h
    exact Option.noConfusion h
  | succ f ih =>
    intro stmts count sp st r hall h
    cases stmts with
    | nil =>
      rw [show execStmts (f+1) [] count sp st = some (.inr count, st) from rfl] at h
      cases h
      simp
    | cons s rest =>
      rw [List.all_cons, Bool.and_eq_true] at hall
      obtain ⟨hs, hrest⟩ := hall
      have hlen : count + 1 + rest.length = count + (s :: rest).length := by
        simp
        omega
      cases s with
      | expressionStatement expr =>
        simp only [execStmts] at h
        split at h
        · exact Option.noConfusion h
        · rw [ih _ _ _ _ _ hrest h, hlen]
      | letStatement name value ty m =>
        simp only [execStmts] at h
        split at h
        · exact Option.noConfusion h
        · rw [ih _ _ _ _ _ hrest h, hlen]
      | returnStatement expr =>
        simp only [execStmts] at h
        split at h
        · exact Option.noConfusion h
        · rw [ih _ _ _ _ _ hrest h, hlen]
      | blockStatement stmts2 sp2 =>
        simp [Statement.isBlockStmt] at hs
      | ifStatement c t e =>
        simp only [execStmts] at h
        split at h
        · exact Option.noConfusion h
        · split at h
          · exact Option.noConfusion h
          · rw [ih _ _ _ _ _ hrest h, hlen]
      | whileStatement c b =>
        simp only [execStmts] at h
        split at h
        · exact Option.noConfusion h
        · rw [ih _ _ _ _ _ hrest h, hlen]
      | forStatement i c inc b =>
        simp only [execStmts] at h
        split at h
        · exact Option.noConfusion h
        · split at h
          · exact Option.noConfusion h
          · rw [ih _ _ _ _ _ hrest h, hlen]
      | macroDefinition name ps b =>
        simp only [execStmts] at h
        rw [ih _ _ _ _ _ hrest h, hlen]

/-- C1, amended.  For every program whose top-level statements include no
block statement (so no nested diagnostic can be returned early), a
terminating `execute_program` returns exactly the count-derived diagnostic:
zero statements Info, a non-zero non-multiple of three Fatal naming the
count, a non-zero multiple of three Info — with the count equal to the
number of top-level statements. -/
theorem c1_balance_rule :
    ∀ (fuel : Nat) (p : Program) (st : RtState),
      p.statements.all (fun s => !s.isBlockStmt) = true →
      (execProgram fuel p st).isSome = true →
      (execProgram fuel p st).map Prod.fst =
        some (balanceDiagnostic p.statements.length p.span) := by
  intro fuel p st hall hsome
  cases fuel with
  | zero => exact absurd hsome (by simp [execProgram])
  | succ f =>
    rw [execProgram_succ] at hsome ⊢
    cases hex : execStmts f p.statements 0 p.span st with
    | none => rw [hex] at hsome; simp at hsome
    | some rs =>
      obtain ⟨res, st1⟩ := rs
      have h1 := execStmts_no_block f p.statements 0 p.span st (res, st1) hall hex
      simp only [Nat.zero_add] at h1
      cases h1
      rfl

/-- C1, witness: flat programs of one to four let statements yield exactly
`Fatal, Fatal, Info, Fatal`, via `c1_balance_rule` at concrete inputs. -/
theorem c1_balance_rule_witness :
    (execProgram 50 (c1Prog 1) initState).map Prod.fst = some (balanceDiagnostic 1 spanZero) ∧
      (execProgram 50 (c1Prog 2) initState).map Prod.fst = some (balanceDiagnostic 2 spanZero) ∧
      (execProgram 50 (c1Prog 3) initState).map Prod.fst = some (balanceDiagnostic 3 spanZero) ∧
      (execProgram 50 (c1Prog 4) initState).map Prod.fst = some (balanceDiagnostic 4 spanZero) ∧
      (balanceDiagnostic 1 spanZero).level = .herFatal ∧
      (balanceDiagnostic 2 spanZero).level = .herFatal ∧
      (balanceDiagnostic 3 spanZero).level = .info ∧
      (balanceDiagnostic 4 spanZero).level = .herFatal := by
  refine ⟨?_, ?_, ?_, ?_, rfl, rfl, rfl, rfl⟩ <;>
    exact c1_balance_rule 50 _ initState (by rfl) (by rfl)

/-- C4, amended.  `Value::Error` is not terminal: when a statement's
expression evaluates to an error value, the runtime logs it like any other
value and the remaining statements of the same sequence execute exactly as
they would from the post-error state.  (The only early exit of a statement
sequence is a nested block statement propagating a Fatal/Error
diagnostic.) -/
theorem c4_error_continues :
    ∀ (fuel : Nat) (e : Expression) (rest : List Statement) (count : Nat) (sp : Span)
      (st st1 : RtState) (msg : String),
      evalExpr fuel e st = some (.error msg, st1) →
      execStmts (fuel+1) (.expressionStatement e :: rest) count sp st =
        execStmts fuel rest (count + 1) sp
          (pushOutput st1 ("Expression result: " ++ valueDebug (.error msg))) := by
  intro fuel e rest count sp st st1 msg hev
  simp only [execStmts, hev]

/-- C4, witness: with the unbound identifier `x` as first statement,
execution continues into the following let, via `c4_error_continues` at a
concrete input. -/
theorem c4_error_continues_witness :
    execStmts 31 (.expressionStatement (.identifier spanZero ("x")) :: [plainLet ("y") (intLit 1)])
        0 spanZero initState =
      execStmts 30 [plainLet ("y") (intLit 1)] 1 spanZero
        (pushOutput initState ("Expression result: Error(\"Undefined variable 'x'\")")) := by
  have h := c4_error_continues 30 (.identifier spanZero ("x")) [plainLet ("y") (intLit 1)]
    0 spanZero initState initState ("Undefined variable 'x'") rfl
  exact h

/-- Levels of every diagnostic the runtime can return, established mutually
for `execute_program` and the early exit of its statement loop: the post-loop
diagnostic is Info or Fatal by construction, and an early diagnostic is a
nested `execute_program` result forwarded only when Fatal or Error — and by
induction it is never Error. -/
theorem diag_levels_aux : ∀ fuel : Nat,
    (∀ (p : Program) (st : RtState) (r : Diagnostic × RtState),
      execProgram fuel p st = some r → r.1.level = .info ∨ r.1.level = .herFatal) ∧
    (∀ (stmts : List Statement) (count : Nat) (sp : Span) (st : RtState)
      (d : Diagnostic) (st1 : RtState),
      execStmts fuel stmts count sp st = some (.inl d, st1) →
      d.level = .info ∨ d.level = .herFatal) := by
  intro fuel
  induction fuel with
  | zero =>
    exact ⟨fun _ _ _ h => Option.noConfusion h, fun _ _ _ _ _ _ h => Option.noConfusion h⟩
  | succ f ih =>
    obtain ⟨ihP, ihS⟩ := ih
    constructor
    · intro p st r h
      rw [execProgram_succ] at h
      split at h
      · exact Option.noConfusion h
      · cases h
        rename_i hex
        exact ihS _ _ _ _ _ _ hex
      · cases h
        simp only [balanceDiagnostic]
        split
        · right; rfl
        · left; rfl
    · intro stmts count sp st d st1 h
      cases stmts with
      | nil =>
        rw [show execStmts (f+1) [] count sp st = some (.inr count, st) from rfl] at h
        simp at h
      | cons s rest =>
        cases s with
        | expressionStatement expr =>
          simp only [execStmts] at h
          split at h
          · exact Option.noConfusion h
          · exact ihS _ _ _ _ _ _ h
        | letStatement name value ty m =>
          simp only [execStmts] at h
          split at h
          · exact Option.noConfusion h
          · exact ihS _ _ _ _ _ _ h
        | returnStatement expr =>
          simp only [execStmts] at h
          split at h
          · exact Option.noConfusion h
          · exact ihS _ _ _ _ _ _ h
        | blockStatement stmts2 sp2 =>
          simp only [execStmts] at h
          split at h
          · exact Option.noConfusion h
          · rename_i diag stB hexec
            split at h
            · cases h
              rename_i hlev
              right
              exact hlev
            · rename_i hlev
              have hin := ihP _ _ _ hexec
              rw [hlev] at hin
              rcases hin with h' | h' <;> exact absurd h' (by simp)
            · exact ihS _ _ _ _ _ _ h
        | ifStatement c t e =>
          simp only [execStmts] at h
          split at h
          · exact Option.noConfusion h
          · split at h
            · exact Option.noConfusion h
            · exact ihS _ _ _ _ _ _ h
        | whileStatement c b =>
          simp only [execStmts] at h
          split at h
          · exact Option.noConfusion h
          · exact ihS _ _ _ _ _ _ h
        | forStatement i c inc b =>
          simp only [execStmts] at h
          split at h
          · exact Option.noConfusion h
          · split at h
            · exact Option.noConfusion h
            · exact ihS _ _ _ _ _ _ h
        | macroDefinition name ps b =>
          simp only [execStmts] at h
          exact ihS _ _ _ _ _ _ h

/-- C10.  Every diagnostic `execute_program` returns — including one
forwarded out of a nested block execution — has level Info or Fatal; Warning
and Error levels are never constructed by the runtime. -/
theorem c10_diag_levels :
    ∀ (fuel : Nat) (p : Program) (st : RtState) (d : Diagnostic) (st1 : RtState),
      execProgram fuel p st = some (d, st1) →
      (d.level = .info ∨ d.level = .herFatal) ∧ d.level ≠ .warning ∧ d.level ≠ .error := by
  intro fuel p st d st1 h
  have hl := (diag_levels_aux fuel).1 p st (d, st1) h
  rcases hl with h' | h' <;> rw [show (d, st1).1 = d from rfl] at h' <;> simp [h']

/-- C10, witness: a one-statement program returns a Fatal diagnostic, whose
level is checked through `c10_diag_levels` at a concrete input. -/
theorem c10_diag_levels_witness :
    ((balanceDiagnostic 1 spanZero).level = .info ∨
        (balanceDiagnostic 1 spanZero).level = .herFatal) ∧
      (balanceDiagnostic 1 spanZero).level ≠ .warning ∧
      (balanceDiagnostic 1 spanZero).level ≠ .error :=
  c10_diag_levels 20 (progOf [plainLet ("w") (intLit 7)]) initState (balanceDiagnostic 1 spanZero)
    ⟨[[("w", Value.integer 7)]], ["Variable 'w' bound"]⟩ rfl

/-- Expression evaluation never changes the environment: every arm threads
the scope through untouched, only the output log can grow. -/
theorem evalExpr_env :
    ∀ (fuel : Nat) (e : Expression) (st : RtState) (v : Value) (st1 : RtState),
      evalExpr fuel e st = some (v, st1) → st1.env = st.env := by
  intro fuel
  induction fuel with
  | zero => intro e st v st1 h; exact Option.noConfusion h
  | succ f ih =>
    intro e st v st1 h
    cases e with
    | literal sp val => simp only [evalExpr] at h; cases h; rfl
    | identifier sp name =>
      simp only [evalExpr] at h
      split at h <;> (cases h; rfl)
    | reflect sp inner =>
      simp only [evalExpr] at h
      split at h
      · exact Option.noConfusion h
      · rename_i val st2 hev
        cases h
        exact ih _ _ _ _ hev
    | eval sp ce =>
      simp only [evalExpr] at h
      split at h
      · exact Option.noConfusion h
      · rename_i cv st2 hev
        split at h
        · split at h
          · exact Option.noConfusion h
          · cases h; exact ih _ _ _ _ hev
          · cases h; exact ih _ _ _ _ hev
        · cases h; exact ih _ _ _ _ hev
    | typeOf sp inner =>
      simp only [evalExpr] at h
      split at h
      · exact Option.noConfusion h
      · rename_i val st2 hev
        cases h
        exact ih _ _ _ _ hev
    | macroCall sp name args => simp only [evalExpr] at h; cases h; rfl
    | prefixOperation sp op e1 => simp only [evalExpr] at h; cases h; rfl
    | infixOperation sp op l r => simp only [evalExpr] at h; cases h; rfl
    | ternary sp a b c => simp only [evalExpr] at h; cases h; rfl
    | function sp ps b => simp only [evalExpr] at h; cases h; rfl
    | call sp f2 args => simp only [evalExpr] at h; cases h; rfl
    | grouped sp inner => simp only [evalExpr] at h; cases h; rfl

/-- `Environment::set` touches only the innermost scope: the outer chain and
the chain length are preserved. -/
theorem envSet_shape (env : Env) (name : String) (v : Value) :
    (envSet env name v).length = env.length ∧ (envSet env name v).tail = env.tail := by
  cases env <;> exact ⟨rfl, rfl⟩

/-- Statement execution can change only the innermost scope: across
`execute_program`, its statement loop and both runtime loops, the outer
chain (the environment's tail) and the chain length are preserved.  The
block arm pushes a fresh scope, runs, and the parent resumes with exactly
its own chain. -/
theorem env_shape_aux : ∀ fuel : Nat,
    (∀ (p : Program) (st : RtState) (r : Diagnostic × RtState),
      execProgram fuel p st = some r →
        r.2.env.length = st.env.length ∧ r.2.env.tail = st.env.tail) ∧
    (∀ (stmts : List Statement) (count : Nat) (sp : Span) (st : RtState)
      (r : (Diagnostic ⊕ Nat) × RtState),
      execStmts fuel stmts count sp st = some r →
        r.2.env.length = st.env.length ∧ r.2.env.tail = st.env.tail) ∧
    (∀ (c : Expression) (b : Statement) (sp : Span) (st st1 : RtState),
      execWhile fuel c b sp st = some st1 →
        st1.env.length = st.env.length ∧ st1.env.tail = st.env.tail) ∧
    (∀ (c inc : Option Expression) (b : Statement) (sp : Span) (st st1 : RtState),
      execFor fuel c inc b sp st = some st1 →
        st1.env.length = st.env.length ∧ st1.env.tail = st.env.tail) := by
  intro fuel
  induction fuel with
  | zero =>
    refine ⟨fun _ _ _ h => Option.noConfusion h, fun _ _ _ _ _ h => Option.noConfusion h,
      fun _ _ _ _ _ h => Option.noConfusion h, fun _ _ _ _ _ _ h => Option.noConfusion h⟩
  | succ f ih =>
    obtain ⟨ihP, ihS, ihW, ihF⟩ := ih
    have hP : ∀ (p : Program) (st : RtState) (r : Diagnostic × RtState),
        execProgram (f+1) p st = some r →
          r.2.env.length = st.env.length ∧ r.2.env.tail = st.env.tail := by
      intro p st r h
      rw [execProgram_succ] at h
      split at h
      · exact Option.noConfusion h
      · cases h
        rename_i hex
        exact ihS _ _ _ _ _ hex
      · cases h
        rename_i hex
        exact ihS _ _ _ _ _ hex
    refine ⟨hP, ?_, ?_, ?_⟩
    · intro stmts count sp st r h
      cases stmts with
      | nil =>
        rw [show execStmts (f+1) [] count sp st = some (.inr count, st) from rfl] at h
        cases h
        exact ⟨rfl, rfl⟩
      | cons s rest =>
        cases s with
        | expressionStatement expr =>
          simp only [execStmts] at h
          split at h
          · exact Option.noConfusion h
          · rename_i val st2 hev
            have h1 := evalExpr_env f expr st val st2 hev
            have h2 := ihS _ _ _ _ _ h
            simp only [pushOutput] at h2
            rw [h1] at h2
            exact h2
        | letStatement name value ty m =>
          simp only [execStmts] at h
          split at h
          · exact Option.noConfusion h
          · rename_i val st2 hev
            have h1 := evalExpr_env f value st val st2 hev
            have h2 := ihS _ _ _ _ _ h
            have h3 := envSet_shape st2.env name val
            simp only [pushOutput] at h2
            rw [h3.1, h3.2, h1] at h2
            exact h2
        | returnStatement expr =>
          simp only [execStmts] at h
          split at h
          · exact Option.noConfusion h
          · rename_i val st2 hev
            have h1 := evalExpr_env f expr st val st2 hev
            have h2 := ihS _ _ _ _ _ h
            simp only [pushOutput] at h2
            rw [h1] at h2
            exact h2
        | blockStatement stmts2 sp2 =>
          simp only [execStmts] at h
          split at h
          · exact Option.noConfusion h
          · rename_i diag stB hexec
            have hB := ihP _ _ _ hexec
            simp only [pushOutput] at hB
            -- hB : stB.env.length = ([] :: st.env).length ∧ stB.env.tail = st.env
            have htail : stB.env.tail = st.env := hB.2
            split at h
            · cases h
              exact ⟨by rw [htail], by rw [htail]⟩
            · cases h
              exact ⟨by rw [htail], by rw [htail]⟩
            · have h2 := ihS _ _ _ _ _ h
              rw [htail] at h2
              exact h2
        | ifStatement c t e =>
          simp only [execStmts] at h
          split at h
          · exact Option.noConfusion h
          · rename_i cv st2 hev
            have h1 := evalExpr_env f c st cv st2 hev
            split at h
            · exact Option.noConfusion h
            · rename_i st3 hbr
              have h2 := ihS _ _ _ _ _ h
              have h3 : st3.env.length = st2.env.length ∧ st3.env.tail = st2.env.tail := by
                cases cv with
                | boolean bv =>
                  cases bv with
                  | true =>
                    simp only at hbr
                    cases hex2 : execProgram f ⟨0, [t], sp⟩ st2 with
                    | none => rw [hex2] at hbr; exact Option.noConfusion hbr
                    | some r2 =>
                      rw [hex2] at hbr
                      cases hbr
                      exact ihP _ _ _ hex2
                  | false =>
                    simp only at hbr
                    cases e with
                    | some es =>
                      simp only at hbr
                      cases hex2 : execProgram f ⟨0, [es], sp⟩ st2 with
                      | none => rw [hex2] at hbr; exact Option.noConfusion hbr
                      | some r2 =>
                        rw [hex2] at hbr
                        cases hbr
                        exact ihP _ _ _ hex2
                    | none =>
                      simp only at hbr
                      cases hbr
                      exact ⟨rfl, rfl⟩
                | _ =>
                  first
                  | (simp only at hbr
                     cases e with
                     | some es =>
                       simp only at hbr
                       cases hex2 : execProgram f ⟨0, [es], sp⟩ st2 with
                       | none => rw [hex2] at hbr; exact Option.noConfusion hbr
                       | some r2 =>
                         rw [hex2] at hbr
                         cases hbr
                         exact ihP _ _ _ hex2
                     | none =>
                       simp only at hbr
                       cases hbr
                       exact ⟨rfl, rfl⟩)
              rw [h1] at h3
              exact ⟨by rw [h2.1, h3.1], by rw [h2.2, h3.2]⟩
        | whileStatement c b =>
          simp only [execStmts] at h
          split at h
          · exact Option.noConfusion h
          · rename_i st2 hw
            have h1 := ihW _ _ _ _ _ hw
            have h2 := ihS _ _ _ _ _ h
            exact ⟨by rw [h2.1, h1.1], by rw [h2.2, h1.2]⟩
        | forStatement i c inc b =>
          simp only [execStmts] at h
          split at h
          · exact Option.noConfusion h
          · rename_i st2 hinit
            have h1 : st2.env.length = st.env.length ∧ st2.env.tail = st.env.tail := by
              cases i with
              | some init =>
                simp only at hinit
                cases hex2 : execProgram f ⟨0, [init], sp⟩ st with
                | none => rw [hex2] at hinit; exact Option.noConfusion hinit
                | some r2 =>
                  rw [hex2] at hinit
                  cases hinit
                  exact ihP _ _ _ hex2
              | none =>
                simp only at hinit
                cases hinit
                exact ⟨rfl, rfl⟩
            split at h
            · exact Option.noConfusion h
            · rename_i st3 hfor
              have h2 := ihF _ _ _ _ _ _ hfor
              have h3 := ihS _ _ _ _ _ h
              exact ⟨by rw [h3.1, h2.1, h1.1], by rw [h3.2, h2.2, h1.2]⟩
        | macroDefinition name ps b =>
          simp only [execStmts] at h
          have h2 := ihS _ _ _ _ _ h
          have h3 := envSet_shape st.env name (.macroVal name)
          simp only [pushOutput] at h2
          rw [h3.1, h3.2] at h2
          exact h2
    · intro c b sp st st1 h
      rw [show execWhile (f+1) c b sp st =
          (match evalExpr f c st with
           | none => none
           | some (cond_val, st2) =>
             match cond_val with
             | .boolean true =>
               match execProgram f ⟨0, [b], sp⟩ st2 with
               | none => none
               | some (_, st3) => execWhile f c b sp st3
             | _ => some st2) from rfl] at h
      split at h
      · exact Option.noConfusion h
      · rename_i cv st2 hev
        have h1 := evalExpr_env f c st cv st2 hev
        split at h
        · split at h
          · exact Option.noConfusion h
          · rename_i d3 st3 hex2
            have h2 := ihP _ _ _ hex2
            have h3 := ihW _ _ _ _ _ h
            rw [h1] at h2
            exact ⟨by rw [h3.1, h2.1], by rw [h3.2, h2.2]⟩
        · cases h
          rw [h1]
          exact ⟨rfl, rfl⟩
    · intro c inc b sp st st1 h
      simp only [execFor] at h
      split at h
      · exact Option.noConfusion h
      · rename_i st2 hc
        have h1 : st2.env = st.env := by
          cases c with
          | none => simp only at hc; cases hc <;> rfl
          | some ce =>
            simp only at hc
            cases hev : evalExpr f ce st with
            | none => rw [hev] at hc; exact Option.noConfusion hc
            | some r2 =>
              obtain ⟨v2, st3⟩ := r2
              rw [hev] at hc
              have henv := evalExpr_env f ce st v2 st3 hev
              cases v2 with
              | boolean bv =>
                cases bv <;> (simp only at hc; cases hc <;> exact henv)
              | integer n => simp only at hc; cases hc <;> exact henv
              | float x => simp only at hc; cases hc <;> exact henv
              | string s2 => simp only at hc; cases hc <;> exact henv
              | function ps bd => simp only at hc; cases hc <;> exact henv
              | null => simp only at hc; cases hc <;> exact henv
              | ret rv => simp only at hc; cases hc <;> exact henv
              | error msg => simp only at hc; cases hc <;> exact henv
              | reflection info => simp only at hc; cases hc <;> exact henv
              | macroVal mn => simp only at hc; cases hc <;> exact henv
              | typeVal tn => simp only at hc; cases hc <;> exact henv
        cases h
        rw [h1]
        exact ⟨rfl, rfl⟩
      · rename_i st2 hc
        have h1 : st2.env = st.env := by
          cases c with
          | none => simp only at hc; cases hc <;> rfl
          | some ce =>
            simp only at hc
            cases hev : evalExpr f ce st with
            | none => rw [hev] at hc; exact Option.noConfusion hc
            | some r2 =>
              obtain ⟨v2, st3⟩ := r2
              rw [hev] at hc
              have henv := evalExpr_env f ce st v2 st3 hev
              cases v2 with
              | boolean bv =>
                cases bv <;> (simp only at hc; cases hc <;> exact henv)
              | integer n => simp only at hc; cases hc <;> exact henv
              | float x => simp only at hc; cases hc <;> exact henv
              | string s2 => simp only at hc; cases hc <;> exact henv
              | function ps bd => simp only at hc; cases hc <;> exact henv
              | null => simp only at hc; cases hc <;> exact henv
              | ret rv => simp only at hc; cases hc <;> exact henv
              | error msg => simp only at hc; cases hc <;> exact henv
              | reflection info => simp only at hc; cases hc <;> exact henv
              | macroVal mn => simp only at hc; cases hc <;> exact henv
              | typeVal tn => simp only at hc; cases hc <;> exact henv
        split at h
        · exact Option.noConfusion h
        · rename_i d3 st3 hex2
          have h2 := ihP _ _ _ hex2
          rw [h1] at h2
          split at h
          · exact Option.noConfusion h
          · rename_i st4 hinc
            have h3 : st4.env = st3.env := by
              cases inc with
              | none => simp only at hinc; cases hinc; rfl
              | some ie =>
                simp only [Option.map] at hinc
                cases hev : evalExpr f ie st3 with
                | none => rw [hev] at hinc; exact Option.noConfusion hinc
                | some r4 =>
                  rw [hev] at hinc
                  cases hinc
                  exact evalExpr_env f ie st3 _ _ hev
            have h4 := ihF _ _ _ _ _ _ h
            rw [h3] at h4
            exact ⟨by rw [h4.1, h2.1], by rw [h4.2, h2.2]⟩

/-- Executing a singleton statement list consisting of one block statement
returns with exactly the incoming environment: the block runs on a freshly
pushed scope and the parent resumes with its own chain, which the nested
execution cannot touch. -/
theorem execStmts_single_block_env :
    ∀ (fuel : Nat) (stmts : List Statement) (bsp sp : Span) (st : RtState)
      (res : Diagnostic ⊕ Nat) (st1 : RtState),
      execStmts fuel [.blockStatement stmts bsp] 0 sp st = some (res, st1) →
      st1.env = st.env := by
  intro fuel stmts bsp sp st res st1 h
  cases fuel with
  | zero => exact Option.noConfusion h
  | succ g =>
    simp only [execStmts] at h
    split at h
    · exact Option.noConfusion h
    · rename_i diag stB hexec
      have hB := (env_shape_aux g).1 _ _ _ hexec
      simp only [pushOutput] at hB
      have htail : stB.env.tail = st.env := hB.2
      split at h
      · cases h
        exact htail
      · cases h
        exact htail
      · cases g with
        | zero => exact Option.noConfusion h
        | succ g2 =>
          rw [show execStmts (g2+1) ([] : List Statement) (0+1) sp
              ⟨stB.env.tail, stB.output⟩ = some (.inr (0+1), ⟨stB.env.tail, stB.output⟩)
            from rfl] at h
          cases h
          exact htail

/-- `execute_program` over a singleton block-statement program returns with
exactly the incoming environment. -/
theorem execProgram_block_env :
    ∀ (fuel : Nat) (stmts : List Statement) (bsp sp : Span) (st : RtState)
      (r : Diagnostic × RtState),
      execProgram fuel ⟨0, [.blockStatement stmts bsp], sp⟩ st = some r →
      r.2.env = st.env := by
  intro fuel stmts bsp sp st r h
  cases fuel with
  | zero => exact Option.noConfusion h
  | succ f =>
    rw [execProgram_succ] at h
    split at h
    · exact Option.noConfusion h
    · cases h
      rename_i hex
      exact execStmts_single_block_env f stmts bsp sp st _ _ hex
    · cases h
      rename_i hex
      exact execStmts_single_block_env f stmts bsp sp st _ _ hex

/-- While loops whose body is a block statement leave the environment
untouched across every iteration. -/
theorem execWhile_block_env :
    ∀ (fuel : Nat) (cond : Expression) (stmts : List Statement) (bsp sp : Span)
      (st st1 : RtState),
      execWhile fuel cond (.blockStatement stmts bsp) sp st = some st1 →
      st1.env = st.env := by
  intro fuel
  induction fuel with
  | zero => intro cond stmts bsp sp st st1 h; exact Option.noConfusion h
  | succ f ih =>
    intro cond stmts bsp sp st st1 h
    simp only [execWhile] at h
    split at h
    · exact Option.noConfusion h
    · rename_i cv st2 hev
      have henv := evalExpr_env f cond st cv st2 hev
      split at h
      · split at h
        · exact Option.noConfusion h
        · rename_i d3 st3 hex2
          have hb := execProgram_block_env f stmts bsp sp st2 (d3, st3) hex2
          have hrec := ih cond stmts bsp sp st3 st1 h
          rw [hrec, hb, henv]
      · cases h
        exact henv

/-- For loops whose body is a block statement leave the environment
untouched across every iteration (the loop itself; the initializer runs
before the loop, in the caller's arm). -/
theorem execFor_block_env :
    ∀ (fuel : Nat) (cond inc : Option Expression) (stmts : List Statement) (bsp sp : Span)
      (st st1 : RtState),
      execFor fuel cond inc (.blockStatement stmts bsp) sp st = some st1 →
      st1.env = st.env := by
  intro fuel
  induction fuel with
  | zero => intro cond inc stmts bsp sp st st1 h; exact Option.noConfusion h
  | succ f ih =>
    intro cond inc stmts bsp sp st st1 h
    simp only [execFor] at h
    split at h
    · exact Option.noConfusion h
    · rename_i st2 hc
      have h1 : st2.env = st.env := by
        cases cond with
        | none => simp only at hc; cases hc <;> rfl
        | some ce =>
          simp only at hc
          cases hev : evalExpr f ce st with
          | none => rw [hev] at hc; exact Option.noConfusion hc
          | some r2 =>
            obtain ⟨v2, st3⟩ := r2
            rw [hev] at hc
            have henv := evalExpr_env f ce st v2 st3 hev
            cases v2 with
            | boolean bv =>
              cases bv <;> (simp only at hc; cases hc <;> exact henv)
            | integer n => simp only at hc; cases hc <;> exact henv
            | float x => simp only at hc; cases hc <;> exact henv
            | string s2 => simp only at hc; cases hc <;> exact henv
            | function ps bd => simp only at hc; cases hc <;> exact henv
            | null => simp only at hc; cases hc <;> exact henv
            | ret rv => simp only at hc; cases hc <;> exact henv
            | error msg => simp only at hc; cases hc <;> exact henv
            | reflection info => simp only at hc; cases hc <;> exact henv
            | macroVal mn => simp only at hc; cases hc <;> exact henv
            | typeVal tn => simp only at hc; cases hc <;> exact henv
      cases h
      exact h1
    · rename_i st2 hc
      have h1 : st2.env = st.env := by
        cases cond with
        | none => simp only at hc; cases hc <;> rfl
        | some ce =>
          simp only at hc
          cases hev : evalExpr f ce st with
          | none => rw [hev] at hc; exact Option.noConfusion hc
          | some r2 =>
            obtain ⟨v2, st3⟩ := r2
            rw [hev] at hc
            have henv := evalExpr_env f ce st v2 st3 hev
            cases v2 with
            | boolean bv =>
              cases bv <;> (simp only at hc; cases hc <;> exact henv)
            | integer n => simp only at hc; cases hc <;> exact henv
            | float x => simp only at hc; cases hc <;> exact henv
            | string s2 => simp only at hc; cases hc <;> exact henv
            | function ps bd => simp only at hc; cases hc <;> exact henv
            | null => simp only at hc; cases hc <;> exact henv
            | ret rv => simp only at hc; cases hc <;> exact henv
            | error msg => simp only at hc; cases hc <;> exact henv
            | reflection info => simp only at hc; cases hc <;> exact henv
            | macroVal mn => simp only at hc; cases hc <;> exact henv
            | typeVal tn => simp only at hc; cases hc <;> exact henv
      split at h
      · exact Option.noConfusion h
      · rename_i d3 st3 hex2
        have hb := execProgram_block_env f stmts bsp sp st2 (d3, st3) hex2
        split at h
        · exact Option.noConfusion h
        · rename_i st4 hinc
          have h3 : st4.env = st3.env := by
            cases inc with
            | none => simp only at hinc; cases hinc; rfl
            | some ie =>
              simp only [Option.map] at hinc
              cases hev : evalExpr f ie st3 with
              | none => rw [hev] at hinc; exact Option.noConfusion hinc
              | some r4 =>
                rw [hev] at hinc
                cases hinc
                exact evalExpr_env f ie st3 _ _ hev
          have hrec := ih cond inc stmts bsp sp st4 st1 h
          rw [hrec, h3, hb, h1]

/-- C7, amended.  When a loop body is a block statement — the only form the
quoted sources' loops take — each iteration executes the body in a brand-new
enclosed scope whose outer scope is the current scope, so the environment is
exactly preserved across the whole `while` or `for` loop: bindings made
inside the block body never persist into later iterations or past the
loop. -/
theorem c7_loop_block_scopes :
    (∀ (fuel : Nat) (cond : Expression) (stmts : List Statement) (bsp sp : Span)
      (st st1 : RtState),
      execWhile fuel cond (.blockStatement stmts bsp) sp st = some st1 →
      st1.env = st.env) ∧
    (∀ (fuel : Nat) (cond inc : Option Expression) (stmts : List Statement) (bsp sp : Span)
      (st st1 : RtState),
      execFor fuel cond inc (.blockStatement stmts bsp) sp st = some st1 →
      st1.env = st.env) :=
  ⟨execWhile_block_env, execFor_block_env⟩

/-- C7, witness: a while loop with a block body containing a let returns
with the initial environment, via `c7_loop_block_scopes` at a concrete
input. -/
theorem c7_loop_block_scopes_witness :
    execWhile 20 (boolLit false) (.blockStatement [plainLet ("z") (intLit 1)] spanZero)
        spanZero initState = some initState ∧
      (execWhile 20 (boolLit false) (.blockStatement [plainLet ("z") (intLit 1)] spanZero)
          spanZero initState).map (fun s => s.env) = some initState.env := by
  have h : execWhile 20 (boolLit false) (.blockStatement [plainLet ("z") (intLit 1)] spanZero)
      spanZero initState = some initState := rfl
  refine ⟨h, ?_⟩
  rw [h]
  exact congrArg some (c7_loop_block_scopes.1 20 _ _ _ _ _ _ h)

/-- C6, amended.  The `eval` contract: a non-string operand value yields the
error "eval() expects a string"; a string operand is run through
`eval_string`, whose success value (or "Eval failed: "-prefixed error)
becomes the result; `eval_string` itself re-lexes, re-parses and executes on
a brand-new runtime rooted at an empty scope, maps a Fatal/Error diagnostic
to its message and otherwise returns the last output line as a string — or
Null when the fresh run logged no output; and for a string operand the
resulting value is independent of the enclosing environment. -/
theorem c6_eval_contract :
    (∀ (fuel : Nat) (sp : Span) (e : Expression) (st : RtState) (v : Value) (st1 : RtState),
      evalExpr fuel e st = some (v, st1) → (∀ s, v ≠ .string s) →
      evalExpr (fuel+1) (.eval sp e) st = some (.error ("eval() expects a string"), st1)) ∧
    (∀ (fuel : Nat) (sp : Span) (e : Expression) (st : RtState) (s : String)
      (st1 : RtState) (v : Value),
      evalExpr fuel e st = some (.string s, st1) →
      evalString fuel s = some (.ok v) →
      evalExpr (fuel+1) (.eval sp e) st = some (v, st1)) ∧
    (∀ (fuel : Nat) (sp : Span) (e : Expression) (st : RtState) (s : String)
      (st1 : RtState) (m : String),
      evalExpr fuel e st = some (.string s, st1) →
      evalString fuel s = some (.error m) →
      evalExpr (fuel+1) (.eval sp e) st = some (.error ("Eval failed: " ++ m), st1)) ∧
    (∀ (fuel : Nat) (s : String) (prog : Program) (d : Diagnostic) (stF : RtState),
      parseSource fuel s = some prog →
      execProgram fuel prog initState = some (d, stF) →
      evalString (fuel+1) s =
        some (if d.level = .herFatal ∨ d.level = .error then Except.error d.message
          else Except.ok (match stF.output.getLast? with
            | some line => Value.string line
            | none => Value.null))) ∧
    (∀ (fuel : Nat) (sp sp2 : Span) (e e2 : Expression) (st st2 : RtState) (s : String)
      (st1 st3 : RtState),
      evalExpr fuel e st = some (.string s, st1) →
      evalExpr fuel e2 st2 = some (.string s, st3) →
      (evalExpr (fuel+1) (.eval sp e) st).map Prod.fst =
        (evalExpr (fuel+1) (.eval sp2 e2) st2).map Prod.fst) := by
  refine ⟨?_, ?_, ?_, ?_, ?_⟩
  · intro fuel sp e st v st1 hev hns
    simp only [evalExpr, hev]
  · intro fuel sp e st s st1 v hev hstr
    simp only [evalExpr, hev, hstr]
  · intro fuel sp e st s st1 m hev hstr
    simp only [evalExpr, hev, hstr]
  · intro fuel s prog d stF hparse hexec
    have hparse2 : parseProgram fuel (ParserService.new (LexerService.new s)) = some prog :=
      hparse
    simp only [evalString, hparse2, hexec]
    cases hl : d.level with
    | herFatal => simp
    | error => simp
    | info => simp
    | warning => simp
  · intro fuel sp sp2 e e2 st st2 s st1 st3 hev hev2
    simp only [evalExpr, hev, hev2]
    cases hs : evalString fuel s with
    | none => rfl
    | some r =>
      cases r with
      | ok v => rfl
      | error m => rfl

/-- C6, witness: evaluating `eval` of the three-let source yields the string
value of the last logged line, via `c6_eval_contract` at a concrete
input. -/
theorem c6_eval_contract_witness :
    evalExpr 301 (.eval spanZero (strLit c6SrcOk)) initState =
      some (.string ("Variable 'c' bound"), initState) :=
  c6_eval_contract.2.1 300 spanZero (strLit c6SrcOk) initState c6SrcOk initState
    (.string ("Variable 'c' bound")) rfl rfl

/-- No-infix invariant over every parsing function: whatever any of them
successfully returns contains no `InfixOperation` node, since
`parse_expression` never constructs one. -/
theorem parser_no_infix_aux : ∀ fuel : Nat,
    (∀ p stmts, parseProgramLoop fuel p = some stmts → stmtListNoInfix stmts = true) ∧
    (∀ p s p', parseStatement fuel p = some (some s, p') → stmtNoInfix s = true) ∧
    (∀ p s p', parseLetStatement fuel p = some (some s, p') → stmtNoInfix s = true) ∧
    (∀ p s p', parseReturnStatement fuel p = some (some s, p') → stmtNoInfix s = true) ∧
    (∀ p s p', parseIfStatement fuel p = some (some s, p') → stmtNoInfix s = true) ∧
    (∀ p s p', parseForStatement fuel p = some (some s, p') → stmtNoInfix s = true) ∧
    (∀ p s p', parseMacroDefinition fuel p = some (some s, p') → stmtNoInfix s = true) ∧
    (∀ p s p', parseBlockStatement fuel p = some (some s, p') → stmtNoInfix s = true) ∧
    (∀ p stmts p', parseBlockLoop fuel p = some (stmts, p') → stmtListNoInfix stmts = true) ∧
    (∀ p s p', parseExpressionStatement fuel p = some (some s, p') → stmtNoInfix s = true) ∧
    (∀ p e p', parseExpression fuel p = some (some e, p') → exprNoInfix e = true) ∧
    (∀ p args p', parseMacroArgs fuel p = some (some args, p') → exprListNoInfix args = true) := by
  intro fuel
  induction fuel with
  | zero =>
    refine ⟨fun _ _ h => Option.noConfusion h, fun _ _ _ h => Option.noConfusion h,
      fun _ _ _ h => Option.noConfusion h, fun _ _ _ h => Option.noConfusion h,
      fun _ _ _ h => Option.noConfusion h, fun _ _ _ h => Option.noConfusion h,
      fun _ _ _ h => Option.noConfusion h, fun _ _ _ h => Option.noConfusion h,
      fun _ _ _ h => Option.noConfusion h, fun _ _ _ h => Option.noConfusion h,
      fun _ _ _ h => Option.noConfusion h, fun _ _ _ h => Option.noConfusion h⟩
  | succ f ih =>
    obtain ⟨ihProg, ihStmt, ihLet, ihRet, ihIf, ihFor, ihMacroDef, ihBlock, ihBlockLoop,
      ihExprStmt, ihExpr, ihArgs⟩ := ih
    refine ⟨?_, ?_, ?_, ?_, ?_, ?_, ?_, ?_, ?_, ?_, ?_, ?_⟩
    · intro p stmts h
      simp only [parseProgramLoop] at h
      split at h
      · cases h; rfl
      · split at h
        · exact Option.noConfusion h
        · rename_i stmt p2 hps
          cases hrec : parseProgramLoop f p2 with
          | none => rw [hrec] at h; exact Option.noConfusion h
          | some rest =>
            rw [hrec] at h
            simp only [Option.map_some'] at h
            cases h
            have h1 := ihStmt p stmt p2 hps
            have h2 := ihProg p2 rest hrec
            simp [stmtListNoInfix, h1, h2]
        · exact ihProg _ stmts h
    · intro p s p' h
      simp only [parseStatement] at h
      repeat' split at h
      all_goals first
        | exact Option.noConfusion h
        | exact ihLet _ _ _ h
        | exact ihRet _ _ _ h
        | exact ihIf _ _ _ h
        | exact ihFor _ _ _ h
        | exact ihMacroDef _ _ _ h
        | exact ihBlock _ _ _ h
        | exact ihExprStmt _ _ _ h
    · intro p s p' h
      simp only [parseLetStatement] at h
      repeat' split at h
      all_goals first
        | exact Option.noConfusion h
        | (simp at h
           obtain ⟨rfl, rfl⟩ := h
           simp only [stmtNoInfix, exprNoInfix, stmtListNoInfix, exprListNoInfix,
             Bool.and_eq_true]
           repeat' apply And.intro
           all_goals first
             | rfl
             | trivial
             | exact ihExpr _ _ _ (by assumption)
             | exact ihStmt _ _ _ (by assumption)
             | exact ihBlock _ _ _ (by assumption)
             | exact ihBlockLoop _ _ _ (by assumption)
             | exact ihArgs _ _ _ (by assumption))
        | simp at h
    · intro p s p' h
      simp only [parseReturnStatement] at h
      repeat' split at h
      all_goals first
        | exact Option.noConfusion h
        | (simp at h
           obtain ⟨rfl, rfl⟩ := h
           simp only [stmtNoInfix, exprNoInfix, stmtListNoInfix, exprListNoInfix,
             Bool.and_eq_true]
           repeat' apply And.intro
           all_goals first
             | rfl
             | trivial
             | exact ihExpr _ _ _ (by assumption)
             | exact ihStmt _ _ _ (by assumption)
             | exact ihBlock _ _ _ (by assumption)
             | exact ihBlockLoop _ _ _ (by assumption)
             | exact ihArgs _ _ _ (by assumption))
        | simp at h
    · intro p s p' h
      simp only [parseIfStatement] at h
      repeat' split at h
      all_goals first
        | exact Option.noConfusion h
        | (simp at h
           obtain ⟨rfl, rfl⟩ := h
           simp only [stmtNoInfix, exprNoInfix, stmtListNoInfix, exprListNoInfix,
             Bool.and_eq_true]
           repeat' apply And.intro
           all_goals first
             | rfl
             | trivial
             | exact ihExpr _ _ _ (by assumption)
             | exact ihStmt _ _ _ (by assumption)
             | exact ihBlock _ _ _ (by assumption)
             | exact ihBlockLoop _ _ _ (by assumption)
             | exact ihArgs _ _ _ (by assumption))
        | simp at h
    · intro p s p' h
      simp only [parseForStatement] at h
      split at h
      · exact Option.noConfusion h
      · simp at h
      · rename_i initializer p3 hinit
        split at h
        · exact Option.noConfusion h
        · simp at h
        · rename_i condition p4 hcond
          split at h
          · exact Option.noConfusion h
          · simp at h
          · rename_i increment p5 hinc
            split at h
            · exact Option.noConfusion h
            · simp at h
            · rename_i body p6 hbody
              simp at h
              obtain ⟨rfl, rfl⟩ := h
              have hInitOk : ∀ si, initializer = some si → stmtNoInfix si = true := by
                intro si hsi
                subst hsi
                split at hinit
                · simp at hinit
                · split at hinit
                  · exact Option.noConfusion hinit
                  · simp at hinit
                  · simp at hinit
                    obtain ⟨rfl, rfl⟩ := hinit
                    exact ihStmt _ _ _ (by assumption)
              have hCondOk : ∀ ce, condition = some ce → exprNoInfix ce = true := by
                intro ce hce
                subst hce
                split at hcond
                · simp at hcond
                · split at hcond
                  · exact Option.noConfusion hcond
                  · simp at hcond
                  · simp at hcond
                    obtain ⟨rfl, rfl⟩ := hcond
                    exact ihExpr _ _ _ (by assumption)
              have hIncOk : ∀ ie, increment = some ie → exprNoInfix ie = true := by
                intro ie hie
                subst hie
                split at hinc
                · simp at hinc
                · split at hinc
                  · exact Option.noConfusion hinc
                  · simp at hinc
                  · simp at hinc
                    obtain ⟨rfl, rfl⟩ := hinc
                    exact ihExpr _ _ _ (by assumption)
              rcases initializer with _ | si <;> rcases condition with _ | ce <;>
                rcases increment with _ | ie
              · simp [stmtNoInfix, ihStmt _ _ _ hbody]
              · simp [stmtNoInfix, ihStmt _ _ _ hbody, hIncOk ie rfl]
              · simp [stmtNoInfix, ihStmt _ _ _ hbody, hCondOk ce rfl]
              · simp [stmtNoInfix, ihStmt _ _ _ hbody, hCondOk ce rfl, hIncOk ie rfl]
              · simp [stmtNoInfix, ihStmt _ _ _ hbody, hInitOk si rfl]
              · simp [stmtNoInfix, ihStmt _ _ _ hbody, hInitOk si rfl, hIncOk ie rfl]
              · simp [stmtNoInfix, ihStmt _ _ _ hbody, hInitOk si rfl, hCondOk ce rfl]
              · simp [stmtNoInfix, ihStmt _ _ _ hbody, hInitOk si rfl, hCondOk ce rfl,
                  hIncOk ie rfl]
    · intro p s p' h
      simp only [parseMacroDefinition] at h
      repeat' split at h
      all_goals first
        | exact Option.noConfusion h
        | (simp at h
           obtain ⟨rfl, rfl⟩ := h
           simp only [stmtNoInfix, exprNoInfix, stmtListNoInfix, exprListNoInfix,
             Bool.and_eq_true]
           repeat' apply And.intro
           all_goals first
             | rfl
             | trivial
             | exact ihExpr _ _ _ (by assumption)
             | exact ihStmt _ _ _ (by assumption)
             | exact ihBlock _ _ _ (by assumption)
             | exact ihBlockLoop _ _ _ (by assumption)
             | exact ihArgs _ _ _ (by assumption))
        | simp at h
    · intro p s p' h
      simp only [parseBlockStatement] at h
      repeat' split at h
      all_goals first
        | exact Option.noConfusion h
        | (simp at h
           obtain ⟨rfl, rfl⟩ := h
           simp only [stmtNoInfix, exprNoInfix, stmtListNoInfix, exprListNoInfix,
             Bool.and_eq_true]
           repeat' apply And.intro
           all_goals first
             | rfl
             | trivial
             | exact ihExpr _ _ _ (by assumption)
             | exact ihStmt _ _ _ (by assumption)
             | exact ihBlock _ _ _ (by assumption)
             | exact ihBlockLoop _ _ _ (by assumption)
             | exact ihArgs _ _ _ (by assumption))
        | simp at h
    · intro p stmts p' h
      simp only [parseBlockLoop] at h
      repeat' split at h
      all_goals first
        | exact Option.noConfusion h
        | exact ihBlockLoop _ _ _ h
        | (simp at h
           obtain ⟨rfl, rfl⟩ := h
           simp only [stmtNoInfix, exprNoInfix, stmtListNoInfix, exprListNoInfix,
             Bool.and_eq_true]
           repeat' apply And.intro
           all_goals first
             | rfl
             | trivial
             | exact ihExpr _ _ _ (by assumption)
             | exact ihStmt _ _ _ (by assumption)
             | exact ihBlock _ _ _ (by assumption)
             | exact ihBlockLoop _ _ _ (by assumption)
             | exact ihArgs _ _ _ (by assumption))
        | simp at h
    · intro p s p' h
      simp only [parseExpressionStatement] at h
      repeat' split at h
      all_goals first
        | exact Option.noConfusion h
        | (simp at h
           obtain ⟨rfl, rfl⟩ := h
           simp only [stmtNoInfix, exprNoInfix, stmtListNoInfix, exprListNoInfix,
             Bool.and_eq_true]
           repeat' apply And.intro
           all_goals first
             | rfl
             | trivial
             | exact ihExpr _ _ _ (by assumption)
             | exact ihStmt _ _ _ (by assumption)
             | exact ihBlock _ _ _ (by assumption)
             | exact ihBlockLoop _ _ _ (by assumption)
             | exact ihArgs _ _ _ (by assumption))
        | simp at h
    · intro p e p' h
      simp only [parseExpression] at h
      repeat' split at h
      all_goals first
        | exact Option.noConfusion h
        | (simp at h
           obtain ⟨rfl, rfl⟩ := h
           simp only [stmtNoInfix, exprNoInfix, stmtListNoInfix, exprListNoInfix,
             Bool.and_eq_true]
           repeat' apply And.intro
           all_goals first
             | rfl
             | trivial
             | exact ihExpr _ _ _ (by assumption)
             | exact ihStmt _ _ _ (by assumption)
             | exact ihBlock _ _ _ (by assumption)
             | exact ihBlockLoop _ _ _ (by assumption)
             | exact ihArgs _ _ _ (by assumption))
        | simp at h
    · intro p args p' h
      simp only [parseMacroArgs] at h
      repeat' split at h
      all_goals first
        | exact Option.noConfusion h
        | (simp at h
           obtain ⟨rfl, rfl⟩ := h
           simp only [stmtNoInfix, exprNoInfix, stmtListNoInfix, exprListNoInfix,
             Bool.and_eq_true]
           repeat' apply And.intro
           all_goals first
             | rfl
             | trivial
             | exact ihExpr _ _ _ (by assumption)
             | exact ihStmt _ _ _ (by assumption)
             | exact ihBlock _ _ _ (by assumption)
             | exact ihBlockLoop _ _ _ (by assumption)
             | exact ihArgs _ _ _ (by assumption))
        | simp at h

/-- C5, amended.  The implemented `parse_expression` is primary-expression
parsing only: no infix operator is ever consumed, and every program
`parse_program` returns contains no `InfixOperation` node anywhere. -/
theorem c5_parser_primary_only :
    ∀ (fuel : Nat) (p : ParserService) (prog : Program),
      parseProgram fuel p = some prog → progNoInfix prog = true := by
  intro fuel p prog h
  unfold parseProgram at h
  cases hl : parseProgramLoop fuel p with
  | none => rw [hl] at h; exact Option.noConfusion h
  | some stmts =>
    rw [hl] at h
    simp only [Option.map_some'] at h
    cases h
    exact (parser_no_infix_aux fuel).1 p stmts hl

/-- C5, witness: the program parsed from `5 + 10` contains no infix node,
via `c5_parser_never_builds_infix` at a concrete input. -/
theorem c5_parser_primary_only_witness :
    progNoInfix ⟨0, [.expressionStatement (.literal ⟨0, 3⟩ (.integer 5)),
      .expressionStatement (.literal ⟨4, 6⟩ (.integer 10))], ⟨0, 0⟩⟩ = true :=
  c5_parser_primary_only 50 (ParserService.new (LexerService.new ("5 + 10"))) _ rfl

/-- C5, counterexample.  Parsing `5 + 10` does not produce an
`InfixOperation` node carrying `+` and both operands, as the claim states:
the parser emits the literal `5` as one expression statement, drops the `+`
token through error recovery, and emits the literal `10` as a second
expression statement. -/
theorem c5_counterexample :
    parseSource 50 ("5 + 10") =
      some ⟨0, [.expressionStatement (.literal ⟨0, 3⟩ (.integer 5)),
        .expressionStatement (.literal ⟨4, 6⟩ (.integer 10))], ⟨0, 0⟩⟩ := rfl

end High
